import Mathlib

/-!
Verification of the docling document-chunking pipeline
(`saas-api/cmd/docling`: `chunking.py`, `doclingbackup.py`,
`document_process.py`) against its natural-language specification.

The development shallowly embeds the parts of the Python source the
claims are about:

* a JSON value model and a faithful embedding of Python's
  `json.dumps` (both with `indent=2, ensure_ascii=False`, used for
  chunk objects, and the default `ensure_ascii=True` form used for
  the header fields);
* the streaming chunk writer of `MarkdownChunker.process_markdown_file`
  (header writes, per-chunk commit with the `is_first_chunk` separator
  logic and the `Index` counter, footer writes), together with the
  file-system operation traces it and the image-OCR read-modify-write
  of `DocumentPipeline.process` perform;
* the table title / header-row heuristic
  `MarkdownChunker._extract_markdown_table_title_and_header`;
* the JSON fast path `chunk_json_directly` and the dispatch in
  `chunk_document` (`document_process.py`);
* the batch orchestration `DocumentPipeline.process_batch` and a
  transition system for its `asyncio.Semaphore` admission gate.

String primitives used by the Python code (`str.strip`, `str.split`,
`str.startswith`, `in`, slicing) are embedded as character-list
functions so that everything is executable by kernel reduction.
-/

namespace Docling

/-! ## JSON value model

`Json` mirrors the values Python's `json` module works with.  Arrays
and objects use the mutually defined spine types `JsonList` /
`JMembers` (object member order is significant: Python dicts preserve
insertion order and `json.dumps` serializes members in that order). -/

mutual

inductive Json where
  | null : Json
  | bool (b : Bool) : Json
  | num (n : Int) : Json
  | str (s : String) : Json
  | arr (elems : JsonList) : Json
  | obj (members : JMembers) : Json

inductive JsonList where
  | nil : JsonList
  | cons (hd : Json) (tl : JsonList) : JsonList

inductive JMembers where
  | nil : JMembers
  | cons (key : String) (val : Json) (tl : JMembers) : JMembers

end

def JsonList.ofList : List Json → JsonList
  | [] => .nil
  | v :: vs => .cons v (ofList vs)

def JsonList.toList : JsonList → List Json
  | .nil => []
  | .cons v vs => v :: toList vs

def JMembers.ofList : List (String × Json) → JMembers
  | [] => .nil
  | (k, v) :: ms => .cons k v (ofList ms)

/-- Lookup of a key in a JSON object's member list (first match),
mirroring Python `dict` access on the decoded object. -/
def JMembers.lookup (k : String) : JMembers → Option Json
  | .nil => none
  | .cons k' v ms => if k' = k then some v else lookup k ms

/-- Decimal digit character, also used for the low hex digits:
`0`-`9` then lowercase `a`-`f` (Python emits lowercase hex in
`\uXXXX` escapes). -/
def hexDigitCh (n : Nat) : Char := "0123456789abcdef".data.getD n '0'

/-- Decimal representation of a positive natural, accumulator form
with explicit fuel (`fuel = n` always suffices since the value shrinks
by a factor of 10 per step); embedding of CPython's integer `repr`. -/
def natReprGo : Nat → Nat → List Char → List Char
  | 0, _, acc => acc
  | fuel + 1, n, acc =>
      if n = 0 then acc
      else natReprGo fuel (n / 10) (hexDigitCh (n % 10) :: acc)

/-- `str(n)` for a Python non-negative integer. -/
def natRepr (n : Nat) : String :=
  if n = 0 then "0" else ⟨natReprGo n n []⟩

/-- `str(i)` for a Python integer; this is what `json.dumps` emits for
an `int`. -/
def intRepr (i : Int) : String :=
  if i < 0 then "-" ++ natRepr i.natAbs else natRepr i.natAbs

/-- Four-hex-digit rendering used inside `\uXXXX` escapes. -/
def hex4 (n : Nat) : String :=
  ⟨[hexDigitCh (n / 4096 % 16), hexDigitCh (n / 256 % 16),
    hexDigitCh (n / 16 % 16), hexDigitCh (n % 16)]⟩

/-- Per-character escaping of Python's `json.dumps` with
`ensure_ascii=False` (`py_encode_basestring`): short escapes for
backslash, quote and the usual control characters, `\u00XX` for the
remaining characters below `0x20`, everything else kept verbatim. -/
def escCharU (c : Char) : String :=
  if c = '\\' then "\\\\"
  else if c = '\"' then "\\\""
  else if c = '\n' then "\\n"
  else if c = '\r' then "\\r"
  else if c = '\t' then "\\t"
  else if c.toNat = 8 then "\\b"
  else if c.toNat = 12 then "\\f"
  else if c.toNat < 32 then
    "\\u00" ++ String.singleton (hexDigitCh (c.toNat / 16)) ++
      String.singleton (hexDigitCh (c.toNat % 16))
  else String.singleton c

/-- Per-character escaping of Python's `json.dumps` with the default
`ensure_ascii=True` (`py_encode_basestring_ascii`): like `escCharU`
but additionally `\uXXXX`-escapes every character outside
`0x20`-`0x7e`, with UTF-16 surrogate pairs above `0xFFFF`. -/
def escCharA (c : Char) : String :=
  if c = '\\' then "\\\\"
  else if c = '\"' then "\\\""
  else if c = '\n' then "\\n"
  else if c = '\r' then "\\r"
  else if c = '\t' then "\\t"
  else if c.toNat = 8 then "\\b"
  else if c.toNat = 12 then "\\f"
  else if c.toNat < 32 then
    "\\u00" ++ String.singleton (hexDigitCh (c.toNat / 16)) ++
      String.singleton (hexDigitCh (c.toNat % 16))
  else if c.toNat < 127 then String.singleton c
  else if c.toNat < 65536 then "\\u" ++ hex4 c.toNat
  else
    "\\u" ++ hex4 (55296 + (c.toNat - 65536) / 1024) ++
      "\\u" ++ hex4 (56320 + (c.toNat - 65536) % 1024)

/-- String-body escaping, `ensure_ascii=False` variant. -/
def escStringU (s : String) : String := String.join (s.data.map escCharU)

/-- String-body escaping, `ensure_ascii=True` variant. -/
def escStringA (s : String) : String := String.join (s.data.map escCharA)

/-- The string literal `json.dumps` emits for a Python string with
`ensure_ascii=False`. -/
def strLitU (s : String) : String := "\"" ++ escStringU s ++ "\""

/-- The string literal `json.dumps(s)` emits with default options
(`ensure_ascii=True`), as used for the `name` / `id` header fields in
`process_markdown_file`. -/
def strLitA (s : String) : String := "\"" ++ escStringA s ++ "\""

mutual

/-- Embedding of `json.dumps(v, indent=2, ensure_ascii=False)`.
`pre` is the line prefix of the current nesting level (the closing
bracket's indentation); nested lines use `pre ++ "  "`.  The top-level
call uses `pre = ""`. -/
def pyDumpsVal (pre : String) : Json → String
  | .null => "null"
  | .bool true => "true"
  | .bool false => "false"
  | .num n => intRepr n
  | .str s => strLitU s
  | .arr .nil => "[]"
  | .arr (.cons h t) =>
      "[\n" ++ pyDumpsElems (pre ++ "  ") (.cons h t) ++ "\n" ++ pre ++ "]"
  | .obj .nil => "\x7b\x7d"
  | .obj (.cons k v t) =>
      "\x7b\n" ++ pyDumpsMems (pre ++ "  ") (.cons k v t) ++ "\n" ++ pre ++
        "\x7d"

/-- Comma-and-newline separated array elements, each on its own line
prefixed by `pre` (empty list unreachable from `pyDumpsVal`). -/
def pyDumpsElems (pre : String) : JsonList → String
  | .nil => ""
  | .cons h .nil => pre ++ pyDumpsVal pre h
  | .cons h (.cons h2 t) =>
      pre ++ pyDumpsVal pre h ++ ",\n" ++ pyDumpsElems pre (.cons h2 t)

/-- Comma-and-newline separated object members, each on its own line
prefixed by `pre`; `json.dumps` renders a member as `"key": value`
(empty list unreachable from `pyDumpsVal`). -/
def pyDumpsMems (pre : String) : JMembers → String
  | .nil => ""
  | .cons k v .nil => pre ++ strLitU k ++ ": " ++ pyDumpsVal pre v
  | .cons k v (.cons k2 v2 t) =>
      pre ++ strLitU k ++ ": " ++ pyDumpsVal pre v ++ ",\n" ++
        pyDumpsMems pre (.cons k2 v2 t)

end

/-- `json.dumps(v, indent=2, ensure_ascii=False)` as called on chunk
objects in `process_markdown_file` (lines 248 and 381). -/
def pyDumps (v : Json) : String := pyDumpsVal "" v

/-! ## Python string primitives

Character-list embeddings of the `str` methods the chunker uses, so
that all definitions reduce in the kernel. -/

/-- Whitespace in the sense of Python's default `str.strip`
(space and the ASCII control whitespace `\t`, `\n`, `\v`, `\f`,
`\r`). -/
def isPyWsCh (c : Char) : Bool :=
  c.toNat = 32 || (9 ≤ c.toNat && c.toNat ≤ 13)

/-- `s.strip()`. -/
def pyStrip (s : String) : String :=
  ⟨((s.data.dropWhile isPyWsCh).reverse.dropWhile isPyWsCh).reverse⟩

/-- `s.startswith(pat)`. -/
def pyStartsWith (s pat : String) : Bool := pat.data.isPrefixOf s.data

/-- `s.endswith(pat)`. -/
def pyEndsWith (s pat : String) : Bool :=
  pat.data.reverse.isPrefixOf s.data.reverse

/-- `pat in s` for strings. -/
def containsSubCh (pat : List Char) : List Char → Bool
  | [] => pat.isEmpty
  | c :: rest => pat.isPrefixOf (c :: rest) || containsSubCh pat rest

/-- Python's substring test `pat in s`. -/
def pyIn (pat s : String) : Bool := containsSubCh pat.data s.data

/-- `s.split('\n')` on character lists: splits at every newline and
keeps empty pieces, like Python `str.split` with an explicit
separator. -/
def splitLinesCh : List Char → List (List Char)
  | [] => [[]]
  | c :: rest =>
      if c = '\n' then [] :: splitLinesCh rest
      else
        match splitLinesCh rest with
        | [] => [[c]]
        | l :: ls => (c :: l) :: ls

/-- `s.split('\n')`. -/
def pySplitNL (s : String) : List String :=
  (splitLinesCh s.data).map (fun l => String.mk l)

/-- `s.lstrip('#')`. -/
def lstripHash (s : String) : String := ⟨s.data.dropWhile (· = '#')⟩

/-- `s.lower()` (ASCII case folding, which is all the fiscal-token
vocabulary needs). -/
def pyLower (s : String) : String := ⟨s.data.map Char.toLower⟩

/-! ## Table title / header-row heuristic

Embedding of `MarkdownChunker._extract_markdown_table_title_and_header`
(`chunking.py` lines 615-719). -/

/-- One step of the table-start scan (`chunking.py` lines 630-643):
a line is a table line when its stripped form starts with `|` but not
with `|--`; a new table is recorded when a table line appears while
not already inside a table; a non-table line that does not start with
`|--` resets the in-table flag, and `|--` lines leave it unchanged. -/
def tableStartsAux : List String → Nat → Bool → List Nat
  | [], _, _ => []
  | l :: rest, i, inTable =>
      let ls := pyStrip l
      let isTab := pyStartsWith ls "|" && !(pyStartsWith ls "|--")
      if isTab && !inTable then i :: tableStartsAux rest (i + 1) true
      else if isTab then tableStartsAux rest (i + 1) true
      else if !(pyStartsWith ls "|--") then tableStartsAux rest (i + 1) false
      else tableStartsAux rest (i + 1) inTable

/-- Anchor line indices of all tables found in the markdown text. -/
def tableStarts (lines : List String) : List Nat := tableStartsAux lines 0 false

/-- The indices visited by `range(tStart - 1, max(-1, tStart - 5), -1)`
(`chunking.py` line 659): at most 4 indices, descending from
`tStart - 1`, stopping above `-1`. -/
def backIdxs : Nat → Nat → List Nat
  | 0, _ => []
  | _ + 1, 0 => []
  | k + 1, i + 1 => i :: backIdxs k i

/-- The subtitle scan between a found heading and the table anchor
(`chunking.py` lines 672-677): the first line in the given index range
whose stripped form is non-empty, starts with `(` and ends with `)`. -/
def firstSubtitle (lines : List String) : List Nat → Option String
  | [] => none
  | j :: rest =>
      let pj := pyStrip (lines.getD j "")
      if pj ≠ "" && pyStartsWith pj "(" && pyEndsWith pj ")" then some pj
      else firstSubtitle lines rest

/-- The fallback-title predicate of `chunking.py` line 681: not a
table row, length strictly between 10 and 150, not starting with `*`
(applied to the stripped line). -/
def fallbackTitleOk (l : String) : Bool :=
  !(pyStartsWith l "|") && decide (10 < l.length) && decide (l.length < 150)
    && !(pyStartsWith l "*")

/-- The backward scan of `chunking.py` lines 654-685.  Walks the given
(descending) indices with the `potential_title_without_hash`
accumulator; returns `(heading title, subtitle, potential title)`. -/
def scanBackAux (lines : List String) (tStart : Nat) :
    List Nat → Option String → Option String × Option String × Option String
  | [], pot => (none, none, pot)
  | i :: rest, pot =>
      let l := pyStrip (lines.getD i "")
      if l = "" then scanBackAux lines tStart rest pot
      else if pyStartsWith l "##" then
        (some (pyStrip (lstripHash l)),
         firstSubtitle lines (List.range' (i + 1) (tStart - (i + 1))),
         pot)
      else if fallbackTitleOk l then
        scanBackAux lines tStart rest (if pot.isNone then some l else pot)
      else scanBackAux lines tStart rest pot

/-- Title and subtitle for the table anchored at line `tStart`
(`chunking.py` lines 654-690): heading title if a `##` line is found
in the backward window, otherwise the recorded potential title.  The
final step embeds the truthiness check
`if not table_title and potential_title_without_hash` of line 688:
both a missing title and a heading that strips to the empty string
are falsy in Python, so either is replaced by the recorded potential
title when one exists (the subtitle found under the heading is kept
either way). -/
def scanBack (lines : List String) (tStart : Nat) :
    Option String × Option String :=
  match scanBackAux lines tStart (backIdxs 4 tStart) none with
  | (some t, sub, pot) =>
      if t = "" then
        match pot with
        | some p => (some p, sub)
        | none => (some t, sub)
      else (some t, sub)
  | (none, _, pot) => (pot, none)

/-- The fixed fiscal-period vocabulary of `chunking.py` line 696. -/
def headerIndicators : List String :=
  ["2023", "2024", "2025", "2026", "fy", "year", "march", "quarter",
   "q1", "q2", "q3", "q4", "june", "september", "december"]

/-- `' '.join(str(cell).lower() for cell in row)`. -/
def rowText (row : List String) : String :=
  String.intercalate " " (row.map pyLower)

/-- Whether a row's lowercased, space-joined text contains any fiscal
indicator token. -/
def rowMatchesIndicators (row : List String) : Bool :=
  headerIndicators.any (fun t => pyIn t (rowText row))

/-- Header-row detection of `chunking.py` lines 692-710: starts at 1;
only for grids of at least 3 rows, the second row can raise it to 2
and then the third row to 3. -/
def detectHeaderRows (grid : List (List String)) : Nat :=
  if 3 ≤ grid.length then
    let n2 := if rowMatchesIndicators (grid.getD 1 []) then 2 else 1
    if n2 = 2 && rowMatchesIndicators (grid.getD 2 []) then 3 else n2
  else 1

/-- Embedding of
`MarkdownChunker._extract_markdown_table_title_and_header` (returns
`(table_title, num_header_rows, subtitle)`).  The guard mirrors
`if not self.markdown_content or not table_data` and the
out-of-range check mirrors lines 647-649.  The `except` path of the
Python code (returning `(None, 1, None)`) is unreachable in this pure
embedding. -/
def extractTitleAndHeader (mdContent : String) (tableIdx : Nat)
    (grid : List (List String)) : Option String × Nat × Option String :=
  if mdContent = "" || grid.isEmpty then (none, 1, none)
  else
    let lines := pySplitNL mdContent
    let starts := tableStarts lines
    match starts.get? tableIdx with
    | none => (none, 1, none)
    | some tStart =>
        let ts := scanBack lines tStart
        (ts.1, detectHeaderRows grid, ts.2)

/-! ## Streaming chunk writer

Embedding of the output-producing part of
`MarkdownChunker.process_markdown_file` (`chunking.py` lines 164-395).

The converter/chunker results are abstracted as inputs: each document
table yields either `some TableData` (structure extraction and title
derivation succeeded) or `none` (`_extract_table_structure` returned
an empty grid, or the per-table `try` failed — the loop `continue`s
without committing anything); each `HybridChunker` text chunk yields
either `some TextData` or `none` (cleaned text shorter than 10
characters, or a table-content chunk — skipped before any write).
All failure paths of one loop iteration happen before that
iteration's writes, so an iteration either commits its chunk entirely
or writes nothing. -/

/-- The values a committed table chunk is built from: the two
generated UUIDs, the resolved title (`markdown_title` if present, the
fallback `_extract_table_title` result otherwise), the section title
and the raw grid. -/
structure TableData where
  chunkUuid : String
  tableUuid : String
  title : String
  sectionTitle : String
  body : List (List String)

/-- The values a committed text chunk is built from: generated UUID,
cleaned content and the derived section title (already truncated to
100 characters upstream). -/
structure TextData where
  chunkUuid : String
  content : String
  sectionTitle : String

/-- A cell grid as the JSON value `json.dumps` receives for the
`body` field. -/
def gridJson (g : List (List String)) : Json :=
  .arr (JsonList.ofList
    (g.map (fun row => .arr (JsonList.ofList (row.map Json.str)))))

/-- The `whole_table_chunk` dict of `chunking.py` lines 224-240, with
its insertion order (`id`, `Index`, `table`, `metadata`).  The
caller-supplied metadata is spread first and the two pipeline fields
follow, as in `{**metadata, "section_title": ..., "content_type":
...}` (Python would overwrite in place if the caller supplied those
keys; the claims never touch that corner). -/
def tableChunkJson (meta : List (String × Json)) (d : TableData)
    (idx : Nat) : Json :=
  .obj (JMembers.ofList
    [("id", .str d.chunkUuid),
     ("Index", .num idx),
     ("table", .obj (JMembers.ofList
        [("id", .str d.tableUuid), ("title", .str d.title),
         ("body", gridJson d.body)])),
     ("metadata", .obj (JMembers.ofList
        (meta ++ [("section_title", .str d.sectionTitle),
                  ("content_type", .str "table")])))])

/-- The `chunk_obj` dict of `chunking.py` lines 364-373 (`id`,
`content`, `Index`, `metadata`). -/
def textChunkJson (meta : List (String × Json)) (d : TextData)
    (idx : Nat) : Json :=
  .obj (JMembers.ofList
    [("id", .str d.chunkUuid),
     ("content", .str d.content),
     ("Index", .num idx),
     ("metadata", .obj (JMembers.ofList
        (meta ++ [("section_title", .str d.sectionTitle),
                  ("content_type", .str "text")])))])

/-- Inserts four spaces after every newline (no prefix at the very
start). -/
def indTailCh : List Char → List Char
  | [] => []
  | c :: rest =>
      if c = '\n' then c :: ' ' :: ' ' :: ' ' :: ' ' :: indTailCh rest
      else c :: indTailCh rest

/-- String form of `indTailCh`. -/
def indentAfterNL (s : String) : String := ⟨indTailCh s.data⟩

/-- Embedding of
`'\n'.join('    ' + line for line in chunk_json.split('\n'))`
(`chunking.py` lines 250 and 383): every line of the serialized chunk,
including the first, gains a four-space prefix. -/
def indentChunk (s : String) : String := "    " ++ indentAfterNL s

/-- The mutable state of the writer loop: the `Index` counter, the
`is_first_chunk` flag, the chunk-region write calls issued so far
(in order), and the committed chunks paired with the `Index` value
each received. -/
structure WState where
  index : Nat
  isFirst : Bool
  writes : List String
  committed : List (Nat × Json)

/-- State after the header is written, before any chunk
(`chunking.py` lines 178-179). -/
def WState.init : WState := ⟨0, true, [], []⟩

/-- One chunk commit (`chunking.py` lines 242-254 / 375-387): write a
`,\n` separator unless this is the first chunk, serialize the chunk
with `json.dumps(..., indent=2, ensure_ascii=False)`, indent every
line by four spaces, write it, and increment `Index`. -/
def commitChunk (st : WState) (mk : Nat → Json) : WState :=
  let v := mk st.index
  { index := st.index + 1
    isFirst := false
    writes := st.writes ++ (if st.isFirst then [] else [",\n"]) ++
      [indentChunk (pyDumps v)]
    committed := st.committed ++ [(st.index, v)] }

/-- The table loop (`chunking.py` lines 182-259): failed or empty
extractions are skipped, successful ones are committed. -/
def processTables (meta : List (String × Json)) :
    List (Option TableData) → WState → WState
  | [], st => st
  | none :: rest, st => processTables meta rest st
  | some d :: rest, st =>
      processTables meta rest (commitChunk st (tableChunkJson meta d))

/-- The text-chunk loop (`chunking.py` lines 264-387): skipped chunks
leave the state untouched, surviving ones are committed. -/
def processTexts (meta : List (String × Json)) :
    List (Option TextData) → WState → WState
  | [], st => st
  | none :: rest, st => processTexts meta rest st
  | some d :: rest, st =>
      processTexts meta rest (commitChunk st (textChunkJson meta d))

/-- The whole commit phase: tables first, then text chunks. -/
def mdRun (meta : List (String × Json)) (tables : List (Option TableData))
    (texts : List (Option TextData)) : WState :=
  processTexts meta texts (processTables meta tables WState.init)

/-- The four header write calls of `chunking.py` lines 168-175.  The
`name` / `id` literals use `json.dumps` with default options
(`ensure_ascii=True`). -/
def headerWrites (name id : String) : List String :=
  ["\x7b\n",
   "  \"name\": " ++ strLitA name ++ ",\n",
   "  \"id\": " ++ strLitA id ++ ",\n",
   "  \"chunks\": [\n"]

/-- The two closing write calls of `chunking.py` lines 390-391. -/
def footerWrites : List String := ["\n  ]\n", "\x7d\n"]

/-- Every write call of a successful `process_markdown_file` run, in
order. -/
def mdOutputWrites (name id : String) (meta : List (String × Json))
    (tables : List (Option TableData)) (texts : List (Option TextData)) :
    List String :=
  headerWrites name id ++ (mdRun meta tables texts).writes ++ footerWrites

/-- The full text of the output file of a successful run. -/
def mdOutput (name id : String) (meta : List (String × Json))
    (tables : List (Option TableData)) (texts : List (Option TextData)) :
    String :=
  String.join (mdOutputWrites name id meta tables texts)

/-- Separator-joined concatenation (the shape the chunk region must
have: one separator between consecutive blobs, none trailing). -/
def joinSep (sep : String) : List String → String
  | [] => ""
  | [b] => b
  | b :: b2 :: rest => b ++ sep ++ joinSep sep (b2 :: rest)

/-- The serialized blob a committed chunk contributes to the file. -/
def chunkBlob (p : Nat × Json) : String := indentChunk (pyDumps p.2)

/-! ## File-system operation traces

For the concurrency-safety claim the relevant observable is which
file-system operations the two writers perform, in order. -/

/-- File-system operations.  `openWrite` is `open(path, 'w')` —
opening the final path itself for writing (truncating in place);
`rename`, `lockAcquire` and `lockRelease` never occur in this
codebase but are part of the observation language so the
specification's safety discipline can be stated. -/
inductive FsOp where
  | openRead (path : String)
  | openWrite (path : String)
  | write (path : String) (data : String)
  | close (path : String)
  | rename (src : String) (dst : String)
  | lockAcquire (path : String)
  | lockRelease (path : String)
deriving DecidableEq

/-- The operation trace of the streaming chunk writer
(`chunking.py` lines 165-392): `aiofiles.open(output_json_path, 'w')`
on the final path, the writes, `close`. -/
def mdWriterOps (outPath name id : String) (meta : List (String × Json))
    (tables : List (Option TableData)) (texts : List (Option TextData)) :
    List FsOp :=
  FsOp.openWrite outPath ::
    ((mdOutputWrites name id meta tables texts).map (FsOp.write outPath) ++
      [FsOp.close outPath])

/-- The operation trace of the late image-OCR read-modify-write
(`doclingbackup.py` lines 276-299): `open(actual_output_path, 'r')`,
`json.load`, append the OCR chunks in memory, then
`open(actual_output_path, 'w')` and `json.dump` — a direct in-place
rewrite of the same path. -/
def ocrAppendOps (outPath : String) (rewritten : String) : List FsOp :=
  [FsOp.openRead outPath, FsOp.close outPath,
   FsOp.openWrite outPath, FsOp.write outPath rewritten,
   FsOp.close outPath]

/-- Number of `write` operations a trace performs on a path. -/
def writesTo (t : List FsOp) (p : String) : Nat :=
  t.countP (fun op => match op with
    | .write q _ => q = p
    | _ => false)

/-- Modelled from the spec: "All writes to a given output path are
additionally protected by a path-scoped mutual-exclusion lock" — at
the very least, a trace that writes to `p` must acquire the lock for
`p`. -/
def UsesPathLock (t : List FsOp) (p : String) : Prop :=
  FsOp.lockAcquire p ∈ t

/-- Modelled from the spec: "performed via
write-to-temporary-file-then-atomic-rename, so that no reader ever
observes a partially written file" — the final path is never itself
opened for writing, and some temporary file is renamed onto it. -/
def UsesTempRename (t : List FsOp) (p : String) : Prop :=
  FsOp.openWrite p ∉ t ∧ ∃ tmp, tmp ≠ p ∧ FsOp.rename tmp p ∈ t

/-- Modelled from the spec: the full safety discipline claimed for
every write to a chunk-output path. -/
def LockedAtomicWrites (t : List FsOp) (p : String) : Prop :=
  0 < writesTo t p → UsesPathLock t p ∧ UsesTempRename t p

/-- Whether an operation touches a lock. -/
def FsOp.isLockOp : FsOp → Bool
  | .lockAcquire _ => true
  | .lockRelease _ => true
  | _ => false

/-- Whether an operation is a rename. -/
def FsOp.isRenameOp : FsOp → Bool
  | .rename _ _ => true
  | _ => false

/-! ## JSON surface grammar

`SerVal v s` says: `s` is a syntactically well-formed JSON rendering
of the value `v` (with arbitrary inter-token whitespace, the two
string-escaping conventions above, and canonical integer literals).
Every `SerVal`-derivable string is a valid JSON text, so exhibiting a
derivation for the writer output proves the output parses. -/

/-- JSON inter-token whitespace. -/
def isJsonWsCh (c : Char) : Bool :=
  c = ' ' || c = '\n' || c = '\t' || c = '\r'

/-- A string of JSON whitespace. -/
def IsWs (s : String) : Prop := s.data.all isJsonWsCh = true

/-- A JSON string literal denoting `v`, in either of the two escaping
conventions `json.dumps` uses. -/
def IsStrLitOf (v lit : String) : Prop := lit = strLitU v ∨ lit = strLitA v

mutual

inductive SerVal : Json → String → Prop where
  | jnull : SerVal Json.null "null"
  | jtrue : SerVal (Json.bool true) "true"
  | jfalse : SerVal (Json.bool false) "false"
  | jnum (n : Int) : SerVal (Json.num n) (intRepr n)
  | jstr (v lit : String) : IsStrLitOf v lit → SerVal (Json.str v) lit
  | jarrEmpty (ws : String) : IsWs ws →
      SerVal (Json.arr JsonList.nil) ("[" ++ ws ++ "]")
  | jarr (vs : JsonList) (body : String) : SerElems vs body →
      SerVal (Json.arr vs) ("[" ++ body ++ "]")
  | jobjEmpty (ws : String) : IsWs ws →
      SerVal (Json.obj JMembers.nil) ("\x7b" ++ ws ++ "\x7d")
  | jobj (ms : JMembers) (body : String) : SerMems ms body →
      SerVal (Json.obj ms) ("\x7b" ++ body ++ "\x7d")

inductive SerElems : JsonList → String → Prop where
  | single (v : Json) (w1 w2 s : String) : IsWs w1 → IsWs w2 →
      SerVal v s → SerElems (JsonList.cons v JsonList.nil) (w1 ++ s ++ w2)
  | cons (v : Json) (vs : JsonList) (w1 w2 s rest : String) :
      IsWs w1 → IsWs w2 → SerVal v s → SerElems vs rest →
      SerElems (JsonList.cons v vs) (w1 ++ s ++ w2 ++ "," ++ rest)

inductive SerMems : JMembers → String → Prop where
  | single (k : String) (v : Json) (w1 w2 w3 w4 klit s : String) :
      IsWs w1 → IsWs w2 → IsWs w3 → IsWs w4 → IsStrLitOf k klit →
      SerVal v s →
      SerMems (JMembers.cons k v JMembers.nil)
        (w1 ++ klit ++ w2 ++ ":" ++ w3 ++ s ++ w4)
  | cons (k : String) (v : Json) (ms : JMembers)
      (w1 w2 w3 w4 klit s rest : String) :
      IsWs w1 → IsWs w2 → IsWs w3 → IsWs w4 → IsStrLitOf k klit →
      SerVal v s → SerMems ms rest →
      SerMems (JMembers.cons k v ms)
        (w1 ++ klit ++ w2 ++ ":" ++ w3 ++ s ++ w4 ++ "," ++ rest)

end

/-- The `Index` field of a serialized chunk object. -/
def jsonIndexField : Json → Option Json
  | .obj ms => ms.lookup "Index"
  | _ => none

/-- The JSON value the whole output file denotes: an object with the
`name`, `id` and `chunks` members, `chunks` holding the committed
chunk objects in commit order. -/
def mdDocJson (name id : String) (meta : List (String × Json))
    (tables : List (Option TableData)) (texts : List (Option TextData)) :
    Json :=
  .obj (JMembers.ofList
    [("name", .str name), ("id", .str id),
     ("chunks", .arr (JsonList.ofList
        ((mdRun meta tables texts).committed.map Prod.snd)))])

/-! ## JSON fast path

Embedding of `chunk_json_directly` and the `.json` dispatch in
`chunk_document` (`document_process.py` lines 303-443 and 494-505).
`json.loads` is an external collaborator; its outcome is passed in as
`parsed : Option Json` (`none` = `json.JSONDecodeError` raised). -/

/-- The `Chunk` dataclass of `document_process.py` lines 116-124. -/
structure PyChunk where
  chunk_id : String
  content : String
  content_type : String
  page_number : Option Int
  section_title : Option String
  chunk_index : Option Int
deriving DecidableEq

/-- `f"{n:04d}"` for a natural number. -/
def pad4 (n : Nat) : String :=
  let s := natRepr n
  String.mk (List.replicate (4 - s.length) '0') ++ s

/-- The chunk built for one array element (`document_process.py`
lines 364-376). -/
def arrayItemChunk (sourceName : String) (i : Nat) (item : Json) : PyChunk :=
  { chunk_id := sourceName ++ "_chunk_" ++ pad4 i
    content := pyDumps item
    content_type := "json_array_item"
    page_number := some 1
    section_title := some ("Item " ++ natRepr (i + 1))
    chunk_index := some (Int.ofNat i) }

/-- `enumerate(json_data)` over the array elements, starting at `i`. -/
def arrayChunksAux (sourceName : String) : Nat → List Json → List PyChunk
  | _, [] => []
  | i, item :: rest =>
      arrayItemChunk sourceName i item :: arrayChunksAux sourceName (i + 1) rest

/-- The single chunk built for a JSON object input
(`document_process.py` lines 384-392). -/
def objectChunk (sourceName formatted : String) : PyChunk :=
  { chunk_id := sourceName ++ "_chunk_0000"
    content := formatted
    content_type := "json_object"
    page_number := some 1
    section_title := some "JSON Object"
    chunk_index := some 0 }

/-- The single chunk built for a primitive JSON input
(`document_process.py` lines 399-407). -/
def primitiveChunk (sourceName formatted : String) : PyChunk :=
  { chunk_id := sourceName ++ "_chunk_0000"
    content := formatted
    content_type := "json"
    page_number := some 1
    section_title := some "JSON Data"
    chunk_index := some 0 }

/-- `asdict(chunk)` in field order, as handed to `json.dump`. -/
def pyChunkJson (c : PyChunk) : Json :=
  .obj (JMembers.ofList
    [("chunk_id", .str c.chunk_id),
     ("content", .str c.content),
     ("content_type", .str c.content_type),
     ("page_number", match c.page_number with
        | none => .null
        | some n => .num n),
     ("section_title", match c.section_title with
        | none => .null
        | some s => .str s),
     ("chunk_index", match c.chunk_index with
        | none => .null
        | some n => .num n)])

/-- The text `json.dump([asdict(c) for c in chunks], f, indent=2,
ensure_ascii=False)` writes (`document_process.py` lines 416-419). -/
def chunkFileText (chunks : List PyChunk) : String :=
  pyDumps (.arr (JsonList.ofList (chunks.map pyChunkJson)))

/-- The Python exceptions relevant to the fast path. -/
inductive PyExc where
  | nameError
deriving DecidableEq

/-- The body of `chunk_json_directly` after reading the file
(`document_process.py` lines 348-421).  When `json.loads` raised, the
inner handler only sets `formatted_content = json_content` — the
variable `json_data` stays unbound, so the structure check
`isinstance(json_data, list)` at line 360 raises `NameError`
(modelled as `.error .nameError`), before any chunk is built or any
output written. -/
def chunkJsonDirectlyBody (sourceName raw : String) (parsed : Option Json) :
    Except PyExc (List PyChunk) :=
  let formatted := match parsed with
    | some j => pyDumps j
    | none => raw
  match parsed with
  | none => .error .nameError
  | some j =>
      .ok (match j with
        | .arr items => arrayChunksAux sourceName 0 items.toList
        | .obj _ => [objectChunk sourceName formatted]
        | _ => [primitiveChunk sourceName formatted])

/-- Full run of `chunk_json_directly`: on success the chunk list is
serialized and written to the output path; any exception reaches the
outer handler (`document_process.py` lines 433-443), which returns 0
— and on the `NameError` path no file operation has happened. -/
def chunkJsonDirectlyRun (sourceName raw outputJson : String)
    (parsed : Option Json) : Nat × List FsOp :=
  match chunkJsonDirectlyBody sourceName raw parsed with
  | .ok chunks =>
      (chunks.length,
       [FsOp.openWrite outputJson,
        FsOp.write outputJson (chunkFileText chunks),
        FsOp.close outputJson])
  | .error _ => (0, [])

/-- Result of the `chunk_document` dispatch: whether the staged
conversion engine was constructed/invoked, the returned chunk count,
and the file operations performed. -/
structure DispatchResult where
  engineInvoked : Bool
  numChunks : Nat
  ops : List FsOp
deriving DecidableEq

/-- The dispatch of `chunk_document` (`document_process.py` lines
494-505): a `.json` suffix (lowercased) goes straight to
`chunk_json_directly` and returns before any converter is created;
every other suffix takes the staged-engine path, abstracted here as
the oracle `enginePath`. -/
def chunkDocumentDispatch (sourceName suffix raw outputJson : String)
    (parsed : Option Json) (enginePath : Nat × List FsOp) : DispatchResult :=
  if pyLower suffix = ".json" then
    let r := chunkJsonDirectlyRun sourceName raw outputJson parsed
    { engineInvoked := false, numChunks := r.1, ops := r.2 }
  else
    { engineInvoked := true, numChunks := enginePath.1, ops := enginePath.2 }

/-! ## Batch shared temporary directory

Embedding of the interaction, inside one
`DocumentPipeline.process_batch` call, between a completed job and a
still-running sibling job through the pipeline's shared temporary
directory.  `DocumentPipeline.__init__` (`doclingbackup.py` lines
147-148) creates one temporary directory per pipeline object
(`self.temp_dir = temp_dir or tempfile.mkdtemp(...)`, with
`self.cleanup_temp = temp_dir is None`), and `process_batch` (lines
344-409) runs every job of the batch as a `process` call on that one
object.  The `finally` block of each `process` call (lines 334-342)
removes that shared directory (`shutil.rmtree(self.temp_dir)`)
whenever `cleanup_temp` holds, while a sibling's conversion step
(`save_markdown_async`, `md_converter.py` lines 361-380) creates its
markdown file inside the same directory and fails once the directory
is gone. -/

/-- The two scheduler events of the minimal interleaving: job A's
`process` call completes (whether by raising an exception or not, its
`finally` at `doclingbackup.py` lines 334-342 runs
`shutil.rmtree(self.temp_dir)`), and job B's conversion step writes
its markdown into the shared `self.temp_dir` (`md_converter.py` lines
361-380), which succeeds exactly when the directory still exists. -/
inductive BEvent where
  | aRun
  | bConvert
deriving DecidableEq

/-- State shared between the two jobs of the batch: whether the
pipeline's `self.temp_dir` still exists on disk, whether job A's
`process` call has completed, and job B's conversion outcome (`none`
while B has not yet reached its save step). -/
structure TwoJobState where
  tempDirExists : Bool
  aDone : Bool
  bConvertOk : Option Bool
deriving DecidableEq

/-- Effect of one event on the shared state: A's completion removes
the shared temporary directory (the guard `self.cleanup_temp and
os.path.exists(self.temp_dir)` at line 336 holds for an auto-created
directory that still exists, and removal of an already-removed
directory leaves it absent); B's save step records whether the
directory was still there when it tried to write. -/
def stepEvent (st : TwoJobState) : BEvent → TwoJobState
  | .aRun => { st with aDone := true, tempDirExists := false }
  | .bConvert => { st with bConvertOk := some st.tempDirExists }

/-- Run a schedule: the event-loop interleaving of the two jobs is
the order in which their steps happen. -/
def runSchedule (events : List BEvent) (st : TwoJobState) : TwoJobState :=
  events.foldl stepEvent st

/-- Initial batch state: `tempfile.mkdtemp` has created the shared
directory, neither job has taken its step yet. -/
def initTwoJob : TwoJobState := ⟨true, false, none⟩

/-! ## Admission gate transition system

Embedding of the `asyncio.Semaphore(max_concurrent)` discipline of
`process_batch` (lines 376-402): every per-source task runs its
entire `process` call inside `async with semaphore`.  The event loop
interleaves the tasks; a task may start processing only by acquiring
the semaphore (enabled only while its counter is positive) and
releases it when its `process` call finishes. -/

/-- The phases of one per-source task: not yet admitted, currently
inside `DocumentPipeline.process`, finished. -/
inductive TStat where
  | waiting
  | running
  | done
deriving DecidableEq

/-- Scheduler state: the semaphore counter and the phase of each
task. -/
structure SchedState where
  sem : Nat
  tasks : List TStat
deriving DecidableEq

/-- Initial state of a batch of `n` sources with concurrency limit
`maxConcurrent`. -/
def initSched (maxConcurrent n : Nat) : SchedState :=
  ⟨maxConcurrent, List.replicate n TStat.waiting⟩

/-- The two scheduler events: task `i` acquires the gate (only when
the counter is positive — `asyncio.Semaphore.acquire` blocks
otherwise) and starts processing, or task `i` finishes processing and
releases the gate. -/
inductive SchedStep : SchedState → SchedState → Prop where
  | acquire (s : SchedState) (i : Nat) :
      s.tasks.get? i = some TStat.waiting → 0 < s.sem →
      SchedStep s ⟨s.sem - 1, s.tasks.set i TStat.running⟩
  | release (s : SchedState) (i : Nat) :
      s.tasks.get? i = some TStat.running →
      SchedStep s ⟨s.sem + 1, s.tasks.set i TStat.done⟩

/-- States reachable in a batch run. -/
inductive SchedReachable (maxConcurrent n : Nat) : SchedState → Prop where
  | init : SchedReachable maxConcurrent n (initSched maxConcurrent n)
  | step (s s' : SchedState) : SchedReachable maxConcurrent n s →
      SchedStep s s' → SchedReachable maxConcurrent n s'

/-- Number of `DocumentPipeline.process` calls currently in flight. -/
def inFlight (s : SchedState) : Nat :=
  s.tasks.countP (fun t => t == TStat.running)

/-! ## Spec-side scan for the backward-window claim

The specification describes the backward scan as covering "at most 4
preceding *non-empty* lines".  The following definition follows those
words (empty lines are passed over without consuming any of the 4
slots), to be contrasted with the code's scan, whose
`range(table_start_idx - 1, max(-1, table_start_idx - 5), -1)` window
spans the 4 immediately preceding lines whether empty or not. -/

/-- Modelled from the spec: the title found by scanning backward from
the anchor across at most 4 preceding non-empty lines, taking the
first line that starts with `##` (hash-and-whitespace-stripped). -/
def specC6Title (lines : List String) (tStart : Nat) : Option String :=
  let preceding := (List.range tStart).reverse.map
    (fun i => pyStrip (lines.getD i ""))
  let nonEmpty := preceding.filter (fun l => l ≠ "")
  ((nonEmpty.take 4).find? (fun l => pyStartsWith l "##")).map
    (fun l => pyStrip (lstripHash l))

/-- Declarative description of the code's backward scan, for the
amended claim: over the window of at most 4 immediately preceding
lines, the nearest `##` line (if any) gives the title, hash-stripped,
and triggers the subtitle scan strictly between it and the anchor —
except that a heading stripping to the empty string (falsy in Python)
is displaced by the nearest fallback-title line scanned before it,
when one exists; with no heading at all, the nearest line satisfying
the fallback-title predicate (and not itself a heading) gives the
title. -/
def declScanBack (lines : List String) (tStart : Nat) :
    Option String × Option String :=
  match (backIdxs 4 tStart).find?
      (fun i => pyStartsWith (pyStrip (lines.getD i "")) "##") with
  | some i =>
      if pyStrip (lstripHash (pyStrip (lines.getD i ""))) = "" then
        match (((backIdxs 4 tStart).takeWhile (fun j =>
            !pyStartsWith (pyStrip (lines.getD j "")) "##")).find? (fun j =>
            fallbackTitleOk (pyStrip (lines.getD j "")))).map
            (fun j => pyStrip (lines.getD j "")) with
        | some p =>
            (some p, firstSubtitle lines (List.range' (i + 1) (tStart - (i + 1))))
        | none =>
            (some (pyStrip (lstripHash (pyStrip (lines.getD i "")))),
             firstSubtitle lines (List.range' (i + 1) (tStart - (i + 1))))
      else
        (some (pyStrip (lstripHash (pyStrip (lines.getD i "")))),
         firstSubtitle lines (List.range' (i + 1) (tStart - (i + 1))))
  | none =>
      (((backIdxs 4 tStart).find? (fun i =>
          fallbackTitleOk (pyStrip (lines.getD i "")) &&
            !pyStartsWith (pyStrip (lines.getD i "")) "##")).map
        (fun i => pyStrip (lines.getD i "")), none)

/-! ## Concrete inputs used by witnesses and counterexamples -/

/-- The markdown of the spec's table-heuristic example. -/
def revenueMd : String :=
  "## Revenue by Segment\n(in millions)\n|A|B|\n|-|-|\n|2024|2025|\n|10|20|"

/-- The cell grid of the spec's table-heuristic example. -/
def revenueGrid : List (List String) :=
  [["A", "B"], ["2024", "2025"], ["10", "20"]]

/-- Markdown whose table anchor is preceded by one heading and four
empty lines: the code's 4-line window sees only the empty lines. -/
def gappedMd : String := "## T1\n\n\n\n\n|a|b|\n|-|-|\n|1|2|"

/-- Markdown with a 30-character plain-text line directly above a
2-row table and no heading anywhere. -/
def fallbackMd : String := "This headline is 30 chars long\n|a|b|\n|c|d|"

/-- Markdown whose table is preceded by a bare `##` heading (which
strips to the empty string) above a 30-character plain line:
exercises the Python truthiness fallback of `chunking.py` line 688. -/
def bareHashMd : String := "##\nThis headline is 30 chars long\n|a|b|\n|c|d|"

/-- A 2-row grid for the fallback-title example. -/
def twoRowGrid : List (List String) := [["a", "b"], ["c", "d"]]

/-- A 3-row grid whose second row carries a fiscal token. -/
def fiscalGrid : List (List String) := [["a"], ["2024"], ["x"]]

/-- The JSON value `[{"a":1},{"a":2}]`. -/
def exArrayJson : Json :=
  .arr (JsonList.ofList
    [.obj (JMembers.ofList [("a", .num 1)]),
     .obj (JMembers.ofList [("a", .num 2)])])

end Docling

/-! # Theorems -/

namespace Docling

/-! ## Shared list / string lemmas -/

theorem strAppendEmpty (s : String) : s ++ "" = s := by
  apply String.ext
  simp [String.data_append]

theorem strEmptyAppend (s : String) : "" ++ s = s := by
  apply String.ext
  simp [String.data_append]

theorem foldlAppendString (l : List String) :
    ∀ x : String, l.foldl (· ++ ·) x = x ++ String.join l := by
  induction l with
  | nil => intro x; simp [String.join, strAppendEmpty]
  | cons s rest ih =>
      intro x
      simp only [List.foldl_cons, String.join] at *
      rw [ih (x ++ s), ih ("" ++ s), strEmptyAppend, String.append_assoc]

theorem joinCons (s : String) (rest : List String) :
    String.join (s :: rest) = s ++ String.join rest := by
  simp only [String.join, List.foldl_cons]
  rw [foldlAppendString rest ("" ++ s), strEmptyAppend]
  rfl

theorem join_append (a b : List String) :
    String.join (a ++ b) = String.join a ++ String.join b := by
  induction a with
  | nil => simp [String.join, strEmptyAppend]
  | cons s rest ih =>
      simp only [List.cons_append]
      rw [joinCons, joinCons, ih, String.append_assoc]

/-! ## C10: invalid JSON input -/

/-- C10.  For a `.json` input whose content does not parse,
`chunk_json_directly` returns 0 and performs no output-file
operation: the inner handler only sets `formatted_content`, leaving
`json_data` unbound, so the structure check raises `NameError` and
the outer handler returns 0 before any write. -/
theorem c10_invalid_json_returns_zero (sourceName raw outputJson : String) :
    chunkJsonDirectlyBody sourceName raw none = .error PyExc.nameError
  ∧ chunkJsonDirectlyRun sourceName raw outputJson none = (0, []) := by
  constructor
  · rfl
  · rfl

/-! ## C4: JSON array fast path -/

theorem toList_ofList (l : List Json) :
    JsonList.toList (JsonList.ofList l) = l := by
  induction l with
  | nil => rfl
  | cons v vs ih => simp [JsonList.ofList, JsonList.toList, ih]

theorem arrayChunksAux_length (sourceName : String) (i : Nat)
    (items : List Json) :
    (arrayChunksAux sourceName i items).length = items.length := by
  induction items generalizing i with
  | nil => rfl
  | cons item rest ih => simp [arrayChunksAux, ih]

theorem arrayChunksAux_content_type (sourceName : String) (i : Nat)
    (items : List Json) :
    (arrayChunksAux sourceName i items).map PyChunk.content_type =
      List.replicate items.length "json_array_item" := by
  induction items generalizing i with
  | nil => rfl
  | cons item rest ih =>
      simp [arrayChunksAux, arrayItemChunk, ih, List.replicate]

theorem arrayChunksAux_chunk_index (sourceName : String) (i : Nat)
    (items : List Json) :
    (arrayChunksAux sourceName i items).map PyChunk.chunk_index =
      (List.range' i items.length).map (fun k => some (Int.ofNat k)) := by
  induction items generalizing i with
  | nil => rfl
  | cons item rest ih =>
      simp [arrayChunksAux, arrayItemChunk, ih, List.range']

theorem arrayChunksAux_content (sourceName : String) (i : Nat)
    (items : List Json) :
    (arrayChunksAux sourceName i items).map PyChunk.content =
      items.map pyDumps := by
  induction items generalizing i with
  | nil => rfl
  | cons item rest ih => simp [arrayChunksAux, arrayItemChunk, ih]

/-- C4.  A `.json` input parsing to an array of `N` elements yields
exactly `N` chunks, one per element in input order, each of content
type `json_array_item` with chunk index `i` for the `i`-th element;
the staged conversion engine is never invoked.  The final two
conjuncts check the spec's concrete example `[{"a":1},{"a":2}]`. -/
theorem c4_json_array_fast_path (sourceName raw outputJson : String)
    (items : List Json) (engine : Nat × List FsOp) :
    (chunkDocumentDispatch sourceName ".json" raw outputJson
        (some (.arr (JsonList.ofList items))) engine).engineInvoked = false
  ∧ (chunkDocumentDispatch sourceName ".json" raw outputJson
        (some (.arr (JsonList.ofList items))) engine).numChunks = items.length
  ∧ chunkJsonDirectlyBody sourceName raw (some (.arr (JsonList.ofList items)))
      = .ok (arrayChunksAux sourceName 0 items)
  ∧ (arrayChunksAux sourceName 0 items).map PyChunk.content_type
      = List.replicate items.length "json_array_item"
  ∧ (arrayChunksAux sourceName 0 items).map PyChunk.chunk_index
      = (List.range items.length).map (fun k => some (Int.ofNat k))
  ∧ (arrayChunksAux sourceName 0 items).map PyChunk.content
      = items.map pyDumps
  ∧ (chunkJsonDirectlyRun "data.json" raw "out.json" (some exArrayJson)).1 = 2
  ∧ (chunkJsonDirectlyBody "data.json" raw (some exArrayJson)).map
      (fun cs => cs.map PyChunk.chunk_index) = .ok [some 0, some 1] := by
  have hbody : chunkJsonDirectlyBody sourceName raw
      (some (.arr (JsonList.ofList items)))
      = .ok (arrayChunksAux sourceName 0 items) := by
    simp [chunkJsonDirectlyBody, toList_ofList]
  have hjson : pyLower ".json" = ".json" := by decide
  refine ⟨?_, ?_, hbody, ?_, ?_, ?_, ?_, ?_⟩
  · rfl
  · simp [chunkDocumentDispatch, chunkJsonDirectlyRun, hbody, hjson,
      arrayChunksAux_length]
  · exact arrayChunksAux_content_type sourceName 0 items
  · rw [arrayChunksAux_chunk_index, List.range_eq_range']
  · exact arrayChunksAux_content sourceName 0 items
  · rfl
  · rfl

/-! ## C5: one job reaches its siblings through the shared temp dir -/

/-- C5 refutation.  The claim says a failing job "never aborts or
alters the processing of sibling sources", but every `process` call
ends in a `finally` block (`doclingbackup.py` lines 334-342) that
removes the pipeline's shared auto-created `self.temp_dir`, which all
jobs of the batch use for their intermediate files: in the schedule
where sibling B saves its converted markdown before job A completes,
B's save step succeeds, while in the schedule where A completes
first, the very same step of B fails because the shared directory is
gone — B's outcome depends on the sibling's timing, so one job's
completion (in particular a fast failure) does break a sibling's
processing. -/
theorem c5_shared_tempdir_code_bug :
    (runSchedule [.bConvert, .aRun] initTwoJob).bConvertOk = some true
  ∧ (runSchedule [.aRun, .bConvert] initTwoJob).bConvertOk = some false := by
  decide

/-! ## C2: no path lock, no temp-file-plus-rename -/

/-- Counterexample to C2.  A concrete successful run of the streaming
chunk writer and a concrete image-OCR append both perform writes to
the output path, yet neither trace acquires any path lock, and both
open the final path itself for writing (no temporary file is ever
renamed onto it), so the claimed locking/atomic-rename discipline is
violated by both writers. -/
theorem c2_no_lock_no_rename_counterexample :
    0 < writesTo (mdWriterOps "out.json" "doc" "d1" [] [] []) "out.json"
  ∧ ¬ UsesPathLock (mdWriterOps "out.json" "doc" "d1" [] [] []) "out.json"
  ∧ FsOp.openWrite "out.json" ∈ mdWriterOps "out.json" "doc" "d1" [] [] []
  ∧ ¬ LockedAtomicWrites (mdWriterOps "out.json" "doc" "d1" [] [] [])
      "out.json"
  ∧ 0 < writesTo (ocrAppendOps "out.json" "rewritten") "out.json"
  ∧ ¬ UsesPathLock (ocrAppendOps "out.json" "rewritten") "out.json"
  ∧ FsOp.openWrite "out.json" ∈ ocrAppendOps "out.json" "rewritten"
  ∧ ¬ LockedAtomicWrites (ocrAppendOps "out.json" "rewritten") "out.json" := by
  refine ⟨by decide, by simp only [UsesPathLock]; decide, by decide, ?_,
    by decide, by simp only [UsesPathLock]; decide, by decide, ?_⟩
  · intro h
    have hlock := (h (by decide)).1
    simp only [UsesPathLock] at hlock
    revert hlock
    decide
  · intro h
    have hlock := (h (by decide)).1
    simp only [UsesPathLock] at hlock
    revert hlock
    decide

/-- Amended C2.  What the code actually does: both writers write
directly to the final output path with no lock operation and no
rename anywhere in their traces — the streaming writer opens the
final path for writing as its first operation and streams into it,
and the image-OCR appender reads the closed file and rewrites the
same path in place. -/
theorem c2_direct_unlocked_writes_amended (outPath name id : String)
    (meta : List (String × Json)) (tables : List (Option TableData))
    (texts : List (Option TextData)) (rewritten : String) :
    ((mdWriterOps outPath name id meta tables texts).all
        (fun op => !op.isLockOp && !op.isRenameOp)) = true
  ∧ (mdWriterOps outPath name id meta tables texts).head? =
      some (FsOp.openWrite outPath)
  ∧ ocrAppendOps outPath rewritten =
      [FsOp.openRead outPath, FsOp.close outPath, FsOp.openWrite outPath,
       FsOp.write outPath rewritten, FsOp.close outPath]
  ∧ ((ocrAppendOps outPath rewritten).all
        (fun op => !op.isLockOp && !op.isRenameOp)) = true := by
  refine ⟨?_, rfl, rfl, rfl⟩
  simp only [mdWriterOps, List.all_cons, List.all_append, List.all_map]
  simp [FsOp.isLockOp, FsOp.isRenameOp, Function.comp, List.all_eq_true]

/-! ## C9: the admission gate bounds in-flight documents -/

theorem countP_set {α : Type} (p : α → Bool) (l : List α) (i : Nat)
    (a b : α) (h : l.get? i = some b) :
    (l.set i a).countP p + (if p b then 1 else 0) =
      l.countP p + (if p a then 1 else 0) := by
  induction l generalizing i with
  | nil => simp at h
  | cons x xs ih =>
      cases i with
      | zero =>
          simp only [List.get?] at h
          cases h
          simp [List.set, List.countP_cons]
          omega
      | succ j =>
          simp only [List.get?] at h
          have := ih j h
          simp [List.set, List.countP_cons]
          omega

theorem countP_replicate {α : Type} (p : α → Bool) (n : Nat) (x : α) :
    (List.replicate n x).countP p = if p x then n else 0 := by
  induction n with
  | zero => simp
  | succ m ih =>
      simp [List.replicate, List.countP_cons, ih]
      split <;> omega

/-- The semaphore-counter invariant: in-flight tasks plus the free
counter always equal the concurrency limit. -/
theorem schedInv (maxConcurrent n : Nat) (s : SchedState)
    (h : SchedReachable maxConcurrent n s) :
    inFlight s + s.sem = maxConcurrent := by
  induction h with
  | init => simp [initSched, inFlight, countP_replicate]
  | step s s' _ hstep ih =>
      cases hstep with
      | acquire i hw hpos =>
          have hc := countP_set (fun t => t == TStat.running) s.tasks i
            TStat.running TStat.waiting hw
          simp only [inFlight] at *
          simp at hc
          omega
      | release i hr =>
          have hc := countP_set (fun t => t == TStat.running) s.tasks i
            TStat.done TStat.running hr
          simp only [inFlight] at *
          simp at hc
          omega

/-- C9.  In every reachable state of a `process_batch` run with
concurrency limit `maxConcurrent`, at most `maxConcurrent`
`DocumentPipeline.process` calls are in flight: each task acquires
the counting gate (enabled only while the counter is positive) before
starting and releases it on completion. -/
theorem c9_concurrency_bound (maxConcurrent n : Nat) (s : SchedState)
    (h : SchedReachable maxConcurrent n s) :
    inFlight s ≤ maxConcurrent := by
  have := schedInv maxConcurrent n s h
  omega

/-- Witness for C9: in the batch of 10 documents with limit 3, after
task 0 is admitted, the reachable state has at most 3 documents in
flight. -/
theorem c9_concurrency_bound_witness :
    inFlight ⟨2, (List.replicate 10 TStat.waiting).set 0 TStat.running⟩ ≤ 3 := by
  have h0 : SchedReachable 3 10 (initSched 3 10) := SchedReachable.init
  have hstep := SchedStep.acquire (initSched 3 10) 0 (by decide) (by decide)
  have hreach : SchedReachable 3 10
      ⟨2, (List.replicate 10 TStat.waiting).set 0 TStat.running⟩ :=
    SchedReachable.step _ _ h0 hstep
  exact c9_concurrency_bound 3 10 _ hreach

/-! ## C1: gapless chunk indices -/

theorem joinSep_append_single (sep : String) (bs : List String) (b : String) :
    joinSep sep (bs ++ [b]) =
      if bs.isEmpty then b else joinSep sep bs ++ sep ++ b := by
  induction bs with
  | nil => simp [joinSep]
  | cons x rest ih =>
      cases rest with
      | nil => simp [joinSep]
      | cons y ys =>
          have step : joinSep sep ((x :: y :: ys) ++ [b]) =
              x ++ sep ++ joinSep sep ((y :: ys) ++ [b]) := by
            simp [joinSep]
          rw [step, ih]
          simp [joinSep, String.append_assoc]

theorem tableChunkJson_index (meta : List (String × Json)) (d : TableData)
    (idx : Nat) :
    jsonIndexField (tableChunkJson meta d idx) = some (Json.num idx) := rfl

theorem textChunkJson_index (meta : List (String × Json)) (d : TextData)
    (idx : Nat) :
    jsonIndexField (textChunkJson meta d idx) = some (Json.num idx) := rfl

/-- One commit preserves the writer invariants. -/
theorem commitChunk_inv (st : WState) (mk : Nat → Json)
    (h1 : st.committed.map Prod.fst = List.range st.index)
    (h2 : st.isFirst = st.committed.isEmpty)
    (h3 : String.join st.writes = joinSep ",\n" (st.committed.map chunkBlob))
    (h4 : ∀ p ∈ st.committed, jsonIndexField p.2 = some (Json.num p.1))
    (hmk : jsonIndexField (mk st.index) = some (Json.num st.index)) :
    ((commitChunk st mk).committed.map Prod.fst =
        List.range (commitChunk st mk).index)
  ∧ ((commitChunk st mk).isFirst = (commitChunk st mk).committed.isEmpty)
  ∧ (String.join (commitChunk st mk).writes =
      joinSep ",\n" ((commitChunk st mk).committed.map chunkBlob))
  ∧ (∀ p ∈ (commitChunk st mk).committed,
      jsonIndexField p.2 = some (Json.num p.1)) := by
  refine ⟨?_, ?_, ?_, ?_⟩
  · simp only [commitChunk, List.map_append, h1, List.map_cons, List.map_nil]
    exact (List.range_succ st.index).symm
  · simp [commitChunk]
  · simp only [commitChunk, join_append, h3, List.map_append, List.map_cons,
      List.map_nil]
    rw [joinSep_append_single]
    have hEmpty : (st.committed.map chunkBlob).isEmpty = st.committed.isEmpty := by
      cases st.committed <;> simp
    rw [hEmpty, ← h2]
    cases hf : st.isFirst
    · simp [String.join, strEmptyAppend, strAppendEmpty, String.append_assoc,
        chunkBlob]
    · have hnil : st.committed = [] := by
        have : st.committed.isEmpty = true := by rw [← h2, hf]
        exact List.isEmpty_iff.mp this
      simp [hnil, joinSep, String.join, strEmptyAppend, strAppendEmpty,
        chunkBlob]
  · intro p hp
    simp only [commitChunk, List.mem_append, List.mem_singleton] at hp
    rcases hp with hp | hp
    · exact h4 p hp
    · subst hp
      exact hmk

/-- The table loop preserves the writer invariants. -/
theorem processTables_inv (meta : List (String × Json))
    (tables : List (Option TableData)) (st : WState)
    (h1 : st.committed.map Prod.fst = List.range st.index)
    (h2 : st.isFirst = st.committed.isEmpty)
    (h3 : String.join st.writes = joinSep ",\n" (st.committed.map chunkBlob))
    (h4 : ∀ p ∈ st.committed, jsonIndexField p.2 = some (Json.num p.1)) :
    ((processTables meta tables st).committed.map Prod.fst =
        List.range (processTables meta tables st).index)
  ∧ ((processTables meta tables st).isFirst =
      (processTables meta tables st).committed.isEmpty)
  ∧ (String.join (processTables meta tables st).writes =
      joinSep ",\n" ((processTables meta tables st).committed.map chunkBlob))
  ∧ (∀ p ∈ (processTables meta tables st).committed,
      jsonIndexField p.2 = some (Json.num p.1)) := by
  induction tables generalizing st with
  | nil => exact ⟨h1, h2, h3, h4⟩
  | cons o rest ih =>
      cases o with
      | none => exact ih st h1 h2 h3 h4
      | some d =>
          have hc := commitChunk_inv st (tableChunkJson meta d) h1 h2 h3 h4
            (tableChunkJson_index meta d st.index)
          exact ih (commitChunk st (tableChunkJson meta d))
            hc.1 hc.2.1 hc.2.2.1 hc.2.2.2

/-- The text loop preserves the writer invariants. -/
theorem processTexts_inv (meta : List (String × Json))
    (texts : List (Option TextData)) (st : WState)
    (h1 : st.committed.map Prod.fst = List.range st.index)
    (h2 : st.isFirst = st.committed.isEmpty)
    (h3 : String.join st.writes = joinSep ",\n" (st.committed.map chunkBlob))
    (h4 : ∀ p ∈ st.committed, jsonIndexField p.2 = some (Json.num p.1)) :
    ((processTexts meta texts st).committed.map Prod.fst =
        List.range (processTexts meta texts st).index)
  ∧ ((processTexts meta texts st).isFirst =
      (processTexts meta texts st).committed.isEmpty)
  ∧ (String.join (processTexts meta texts st).writes =
      joinSep ",\n" ((processTexts meta texts st).committed.map chunkBlob))
  ∧ (∀ p ∈ (processTexts meta texts st).committed,
      jsonIndexField p.2 = some (Json.num p.1)) := by
  induction texts generalizing st with
  | nil => exact ⟨h1, h2, h3, h4⟩
  | cons o rest ih =>
      cases o with
      | none => exact ih st h1 h2 h3 h4
      | some d =>
          have hc := commitChunk_inv st (textChunkJson meta d) h1 h2 h3 h4
            (textChunkJson_index meta d st.index)
          exact ih (commitChunk st (textChunkJson meta d))
            hc.1 hc.2.1 hc.2.2.1 hc.2.2.2

/-- The writer invariants hold for the whole commit phase. -/
theorem mdRun_inv (meta : List (String × Json))
    (tables : List (Option TableData)) (texts : List (Option TextData)) :
    ((mdRun meta tables texts).committed.map Prod.fst =
        List.range (mdRun meta tables texts).index)
  ∧ ((mdRun meta tables texts).isFirst =
      (mdRun meta tables texts).committed.isEmpty)
  ∧ (String.join (mdRun meta tables texts).writes =
      joinSep ",\n" ((mdRun meta tables texts).committed.map chunkBlob))
  ∧ (∀ p ∈ (mdRun meta tables texts).committed,
      jsonIndexField p.2 = some (Json.num p.1)) := by
  have ht := processTables_inv meta tables WState.init
    (by simp [WState.init]) (by simp [WState.init])
    (by simp [WState.init, joinSep, String.join]) (by simp [WState.init])
  exact processTexts_inv meta texts _ ht.1 ht.2.1 ht.2.2.1 ht.2.2.2

/-- C1.  In every successful `process_markdown_file` run the `Index`
values of the committed chunks form the gapless sequence
`0, 1, ..., n-1` in commit order, the chunk region of the file is
exactly the committed blobs joined by single separators (so file
order equals commit order), and each serialized chunk object carries
its own commit position in its `Index` field — however many tables or
text chunks were skipped. -/
theorem c1_chunk_index_gapless (meta : List (String × Json))
    (tables : List (Option TableData)) (texts : List (Option TextData)) :
    ((mdRun meta tables texts).committed.map Prod.fst =
        List.range (mdRun meta tables texts).committed.length)
  ∧ (String.join (mdRun meta tables texts).writes =
      joinSep ",\n" ((mdRun meta tables texts).committed.map chunkBlob))
  ∧ (∀ p ∈ (mdRun meta tables texts).committed,
      jsonIndexField p.2 = some (Json.num p.1)) := by
  have h := mdRun_inv meta tables texts
  have hlen : (mdRun meta tables texts).committed.length =
      (mdRun meta tables texts).index := by
    have := congrArg List.length h.1
    simpa using this
  exact ⟨hlen ▸ h.1, h.2.2.1, h.2.2.2⟩

/-! ## Reaching the scan and header detection -/

/-- When the markdown is non-empty, the grid non-empty and the table
index within the detected tables, the extractor's result is the
backward scan's title/subtitle around the detected header count. -/
theorem extract_reaches_scan (md : String) (idx : Nat)
    (grid : List (List String)) (tStart : Nat) (h1 : md ≠ "")
    (h2 : grid ≠ [])
    (h3 : (tableStarts (pySplitNL md)).get? idx = some tStart) :
    extractTitleAndHeader md idx grid =
      ((scanBack (pySplitNL md) tStart).1, detectHeaderRows grid,
       (scanBack (pySplitNL md) tStart).2) := by
  unfold extractTitleAndHeader
  have hcond : (decide (md = "") || grid.isEmpty) = false := by
    simp [h1, h2]
  rw [hcond]
  simp only [Bool.false_eq_true, if_false, h3]

/-! ## C7: header-row detection guarded by the table lookup -/

/-- Counterexample to C7.  A grid of 3 rows whose second row contains
the fiscal token `2024`, passed with a markdown text containing no
table at all: the claim says header-row count 2, but the function
returns 1 from the table-lookup early return. -/
theorem c7_early_return_counterexample :
    extractTitleAndHeader "hello" 0 fiscalGrid = (none, 1, none)
  ∧ 3 ≤ fiscalGrid.length
  ∧ rowMatchesIndicators (fiscalGrid.getD 1 []) = true := by decide

/-- Amended C7.  When the function reaches header detection (non-empty
markdown, non-empty grid, table index within the detected tables), the
header-row count is 1 by default, 2 when the grid has at least 3 rows
and the second row's lowercased space-joined text contains a fiscal
token, and 3 when the third row also matches; no row beyond the third
is considered, and a grid with fewer than 3 rows always yields 1 on
every path, early returns included. -/
theorem c7_header_rows_amended (md : String) (idx : Nat)
    (grid : List (List String)) :
    (∀ tStart, md ≠ "" → grid ≠ [] →
      (tableStarts (pySplitNL md)).get? idx = some tStart →
      (extractTitleAndHeader md idx grid).2.1 =
        if 3 ≤ grid.length then
          if rowMatchesIndicators (grid.getD 1 []) then
            if rowMatchesIndicators (grid.getD 2 []) then 3 else 2
          else 1
        else 1)
  ∧ (grid.length < 3 → (extractTitleAndHeader md idx grid).2.1 = 1) := by
  constructor
  · intro tStart h1 h2 h3
    rw [extract_reaches_scan md idx grid tStart h1 h2 h3]
    show detectHeaderRows grid = _
    unfold detectHeaderRows
    by_cases hlen : 3 ≤ grid.length
    · rw [if_pos hlen, if_pos hlen]
      cases hm1 : rowMatchesIndicators (grid.getD 1 []) <;>
        cases hm2 : rowMatchesIndicators (grid.getD 2 []) <;>
          simp [hm1, hm2]
    · rw [if_neg hlen, if_neg hlen]
  · intro hlen
    have hnot : ¬ 3 ≤ grid.length := by omega
    by_cases hmd : md = ""
    · simp [extractTitleAndHeader, hmd]
    · by_cases hgr : grid = []
      · simp [extractTitleAndHeader, hgr]
      · cases hs : (tableStarts (pySplitNL md)).get? idx with
        | none =>
            unfold extractTitleAndHeader
            have hcond : (decide (md = "") || grid.isEmpty) = false := by
              simp [hmd, hgr]
            rw [hcond]
            simp only [Bool.false_eq_true, if_false, hs]
        | some t =>
            rw [extract_reaches_scan md idx grid t hmd hgr hs]
            simp [detectHeaderRows, hnot]

/-- Witness for the amended C7 on the spec's revenue example: the
3-row grid whose second row contains `2024` (and whose third row
matches nothing) gets header-row count 2. -/
theorem c7_header_rows_amended_witness :
    (extractTitleAndHeader revenueMd 0 revenueGrid).2.1 = 2 := by
  have h := (c7_header_rows_amended revenueMd 0 revenueGrid).1 2
    (by decide) (by decide) (by decide)
  rw [h]
  decide

/-! ## The backward scan, declaratively -/

theorem find?_congr_on {α : Type} (l : List α) (p q : α → Bool)
    (h : ∀ a ∈ l, p a = q a) : l.find? p = l.find? q := by
  induction l with
  | nil => rfl
  | cons x xs ih =>
      have hx := h x (List.mem_cons_self x xs)
      cases hq : q x with
      | true =>
          rw [List.find?_cons_of_pos _ (by rw [hx, hq]),
            List.find?_cons_of_pos _ hq]
      | false =>
          rw [List.find?_cons_of_neg _ (by simp [hx, hq]),
            List.find?_cons_of_neg _ (by simp [hq])]
          exact ih (fun a ha => h a (List.mem_cons_of_mem x ha))

theorem scanBackAux_heading (lines : List String) (tStart : Nat)
    (idxs : List Nat) (pot : Option String) (i : Nat)
    (hfind : idxs.find? (fun j =>
        pyStartsWith (pyStrip (lines.getD j "")) "##") = some i) :
    (scanBackAux lines tStart idxs pot).1 =
      some (pyStrip (lstripHash (pyStrip (lines.getD i ""))))
  ∧ (scanBackAux lines tStart idxs pot).2.1 =
      firstSubtitle lines (List.range' (i + 1) (tStart - (i + 1))) := by
  induction idxs generalizing pot with
  | nil => simp at hfind
  | cons j rest ih =>
      by_cases hj : pyStartsWith (pyStrip (lines.getD j "")) "##" = true
      · rw [List.find?_cons_of_pos rest hj] at hfind
        have hji : j = i := Option.some.inj hfind
        subst hji
        have hne : pyStrip (lines.getD j "") ≠ "" := by
          intro hempty
          rw [hempty] at hj
          exact absurd hj (by decide)
        simp only [scanBackAux]
        rw [if_neg hne, if_pos hj]
        exact ⟨rfl, rfl⟩
      · rw [List.find?_cons_of_neg rest (by simpa using hj)] at hfind
        simp only [scanBackAux]
        by_cases he : pyStrip (lines.getD j "") = ""
        · rw [if_pos he]
          exact ih pot hfind
        · rw [if_neg he, if_neg hj]
          by_cases hfb : fallbackTitleOk (pyStrip (lines.getD j "")) = true
          · rw [if_pos hfb]
            exact ih _ hfind
          · rw [if_neg hfb]
            exact ih pot hfind

theorem scanBackAux_no_heading (lines : List String) (tStart : Nat)
    (idxs : List Nat) (pot : Option String)
    (hfind : idxs.find? (fun j =>
        pyStartsWith (pyStrip (lines.getD j "")) "##") = none) :
    (scanBackAux lines tStart idxs pot).1 = none
  ∧ (scanBackAux lines tStart idxs pot).2.2 =
      (match pot with
       | some x => some x
       | none => (idxs.find? (fun j =>
            fallbackTitleOk (pyStrip (lines.getD j "")))).map
          (fun j => pyStrip (lines.getD j ""))) := by
  induction idxs generalizing pot with
  | nil =>
      cases pot <;> simp [scanBackAux]
  | cons j rest ih =>
      have hj : pyStartsWith (pyStrip (lines.getD j "")) "##" = false := by
        cases hb : pyStartsWith (pyStrip (lines.getD j "")) "##"
        · rfl
        · rw [List.find?_cons_of_pos rest hb] at hfind
          cases hfind
      have hj' : ¬ pyStartsWith (pyStrip (lines.getD j "")) "##" = true := by
        rw [hj]
        exact Bool.false_ne_true
      rw [List.find?_cons_of_neg rest (by
        show ¬ pyStartsWith (pyStrip (lines.getD j "")) "##" = true
        rw [hj]
        exact Bool.false_ne_true)] at hfind
      simp only [scanBackAux]
      by_cases he : pyStrip (lines.getD j "") = ""
      · have hfb0 : fallbackTitleOk (pyStrip (lines.getD j "")) = false := by
          rw [he]
          decide
        have hr := ih pot hfind
        rw [if_pos he]
        refine ⟨hr.1, ?_⟩
        rw [List.find?_cons_of_neg rest (by simpa using hfb0)]
        exact hr.2
      · rw [if_neg he, if_neg hj']
        by_cases hfb : fallbackTitleOk (pyStrip (lines.getD j "")) = true
        · rw [if_pos hfb]
          have hr := ih
            (if pot.isNone then some (pyStrip (lines.getD j "")) else pot)
            hfind
          refine ⟨hr.1, ?_⟩
          rw [List.find?_cons_of_pos rest hfb, hr.2]
          cases pot <;> simp
        · rw [if_neg hfb]
          have hfb0 : fallbackTitleOk (pyStrip (lines.getD j "")) = false := by
            simpa using hfb
          have hr := ih pot hfind
          refine ⟨hr.1, ?_⟩
          rw [List.find?_cons_of_neg rest (by simpa using hfb0)]
          exact hr.2

theorem scanBackAux_pot_some (lines : List String) (tStart : Nat)
    (idxs : List Nat) (x : String) :
    (scanBackAux lines tStart idxs (some x)).2.2 = some x := by
  induction idxs with
  | nil => rfl
  | cons j rest ih =>
      simp only [scanBackAux]
      by_cases he : pyStrip (lines.getD j "") = ""
      · rw [if_pos he]
        exact ih
      · rw [if_neg he]
        by_cases hp : pyStartsWith (pyStrip (lines.getD j "")) "##" = true
        · rw [if_pos hp]
        · rw [if_neg hp]
          by_cases hfb : fallbackTitleOk (pyStrip (lines.getD j "")) = true
          · rw [if_pos hfb]
            exact ih
          · rw [if_neg hfb]
            exact ih

theorem scanBackAux_pot_none (lines : List String) (tStart : Nat)
    (idxs : List Nat) :
    (scanBackAux lines tStart idxs none).2.2 =
      ((idxs.takeWhile (fun j =>
          !pyStartsWith (pyStrip (lines.getD j "")) "##")).find? (fun j =>
          fallbackTitleOk (pyStrip (lines.getD j "")))).map
        (fun j => pyStrip (lines.getD j "")) := by
  induction idxs with
  | nil => rfl
  | cons j rest ih =>
      simp only [scanBackAux, List.takeWhile_cons]
      by_cases he : pyStrip (lines.getD j "") = ""
      · have hfb0 : ¬ fallbackTitleOk (pyStrip (lines.getD j "")) = true := by
          rw [he]
          decide
        have hnp : (!pyStartsWith (pyStrip (lines.getD j "")) "##") = true := by
          rw [he]
          decide
        rw [if_pos he, if_pos hnp, List.find?_cons_of_neg _ (by exact hfb0)]
        exact ih
      · rw [if_neg he]
        by_cases hp : pyStartsWith (pyStrip (lines.getD j "")) "##" = true
        · have hneg : ¬ (!pyStartsWith (pyStrip (lines.getD j "")) "##") = true := by
            rw [hp]
            decide
          rw [if_pos hp, if_neg hneg]
          rfl
        · have hp0 : pyStartsWith (pyStrip (lines.getD j "")) "##" = false := by
            simpa using hp
          have hnp : (!pyStartsWith (pyStrip (lines.getD j "")) "##") = true := by
            rw [hp0]
            rfl
          rw [if_neg hp, if_pos hnp]
          by_cases hfb : fallbackTitleOk (pyStrip (lines.getD j "")) = true
          · rw [if_pos hfb, List.find?_cons_of_pos _ (by exact hfb)]
            exact scanBackAux_pot_some lines tStart rest
              (pyStrip (lines.getD j ""))
          · rw [if_neg hfb, List.find?_cons_of_neg _ (by exact hfb)]
            exact ih

/-- The loop-with-accumulator backward scan equals its declarative
description: nearest `##` line in the 4-line window wins (with the
subtitle scan between it and the anchor, and the empty-heading
truthiness fallback to the nearest fallback-title line scanned before
it), otherwise the nearest fallback-title line in the window. -/
theorem scanBack_eq_decl (lines : List String) (tStart : Nat) :
    scanBack lines tStart = declScanBack lines tStart := by
  unfold scanBack declScanBack
  cases hfind : (backIdxs 4 tStart).find? (fun j =>
      pyStartsWith (pyStrip (lines.getD j "")) "##") with
  | some i =>
      have h := scanBackAux_heading lines tStart (backIdxs 4 tStart) none i
        hfind
      have hpot := scanBackAux_pot_none lines tStart (backIdxs 4 tStart)
      rcases hr : scanBackAux lines tStart (backIdxs 4 tStart) none with
        ⟨t1, t2, t3⟩
      rw [hr] at h hpot
      simp only at h hpot
      rw [h.1, h.2, hpot]
  | none =>
      have h := scanBackAux_no_heading lines tStart (backIdxs 4 tStart) none
        hfind
      rcases hr : scanBackAux lines tStart (backIdxs 4 tStart) none with
        ⟨t1, t2, t3⟩
      rw [hr] at h
      simp only at h
      rw [h.1, h.2]
      have hpt : ∀ j ∈ backIdxs 4 tStart,
          fallbackTitleOk (pyStrip (lines.getD j "")) =
          (fallbackTitleOk (pyStrip (lines.getD j "")) &&
            !pyStartsWith (pyStrip (lines.getD j "")) "##") := by
        intro j hjmem
        have hhp := List.find?_eq_none.mp hfind j hjmem
        simp only [Bool.not_eq_true] at hhp
        rw [hhp]
        simp
      rw [find?_congr_on _ _ _ hpt]

/-! ## C6: the heading window -/

/-- Counterexample to C6.  In `gappedMd` the only preceding non-empty
line is the heading `## T1`, well within 4 non-empty lines of the
anchor (line 5), so the claim's backward scan ("at most 4 preceding
non-empty lines") finds title `T1`; the code's scan spans the 4
immediately preceding lines — all empty — and returns no title. -/
theorem c6_window_counterexample :
    extractTitleAndHeader gappedMd 0 twoRowGrid = (none, 1, none)
  ∧ (tableStarts (pySplitNL gappedMd)).get? 0 = some 5
  ∧ specC6Title (pySplitNL gappedMd) 5 = some "T1" := by decide

/-- Amended C6.  The backward scan covers at most the 4 immediately
preceding lines (empty lines are skipped but still consume the
window): within that window the nearest `##` line, hash-stripped,
becomes the title — unless it strips to the empty string, a falsy
value in Python, in which case the nearest fallback-title line
scanned before the heading takes its place — and then the lines
strictly between the heading and the anchor are scanned for a `(...)`
subtitle; the spec's example markdown yields title
`Revenue by Segment` and subtitle `(in millions)`, and a bare `##`
heading above a 30-character line yields that line as title. -/
theorem c6_window_scan_amended :
    (∀ lines tStart, scanBack lines tStart = declScanBack lines tStart)
  ∧ (∀ md idx grid tStart, md ≠ "" → grid ≠ [] →
      (tableStarts (pySplitNL md)).get? idx = some tStart →
      extractTitleAndHeader md idx grid =
        ((declScanBack (pySplitNL md) tStart).1, detectHeaderRows grid,
         (declScanBack (pySplitNL md) tStart).2))
  ∧ extractTitleAndHeader revenueMd 0 revenueGrid =
      (some "Revenue by Segment", 2, some "(in millions)")
  ∧ extractTitleAndHeader bareHashMd 0 twoRowGrid =
      (some "This headline is 30 chars long", 1, none) := by
  refine ⟨scanBack_eq_decl, ?_, by decide, by decide⟩
  intro md idx grid tStart h1 h2 h3
  rw [extract_reaches_scan md idx grid tStart h1 h2 h3, scanBack_eq_decl]

/-- Witness for the amended C6 at the spec's example markdown (table
0 anchored at line 2). -/
theorem c6_window_scan_amended_witness :
    extractTitleAndHeader revenueMd 0 revenueGrid =
      ((declScanBack (pySplitNL revenueMd) 2).1, detectHeaderRows revenueGrid,
       (declScanBack (pySplitNL revenueMd) 2).2) :=
  c6_window_scan_amended.2.1 revenueMd 0 revenueGrid 2 (by decide) (by decide)
    (by decide)

/-! ## C8: the fallback title -/

/-- C8.  When the backward scan finds no `##` heading, the title is
the closest line in the scan window that is not a table row, has
length strictly between 10 and 150 and does not start with `*`; in
particular a 2-row table preceded by a 30-character plain-text line
and no heading gets that line as its title. -/
theorem c8_fallback_title (md : String) (idx : Nat)
    (grid : List (List String)) (tStart : Nat) (h1 : md ≠ "")
    (h2 : grid ≠ [])
    (h3 : (tableStarts (pySplitNL md)).get? idx = some tStart)
    (h4 : (backIdxs 4 tStart).find? (fun j =>
        pyStartsWith (pyStrip ((pySplitNL md).getD j "")) "##") = none) :
    (extractTitleAndHeader md idx grid).1 =
      ((backIdxs 4 tStart).find? (fun j =>
          fallbackTitleOk (pyStrip ((pySplitNL md).getD j "")))).map
        (fun j => pyStrip ((pySplitNL md).getD j ""))
  ∧ extractTitleAndHeader fallbackMd 0 twoRowGrid =
      (some "This headline is 30 chars long", 1, none) := by
  refine ⟨?_, by decide⟩
  rw [extract_reaches_scan md idx grid tStart h1 h2 h3]
  show (scanBack (pySplitNL md) tStart).1 = _
  rw [scanBack_eq_decl]
  unfold declScanBack
  rw [h4]
  simp only
  have hpt : ∀ j ∈ backIdxs 4 tStart,
      (fallbackTitleOk (pyStrip ((pySplitNL md).getD j "")) &&
        !pyStartsWith (pyStrip ((pySplitNL md).getD j "")) "##") =
      fallbackTitleOk (pyStrip ((pySplitNL md).getD j "")) := by
    intro j hj
    have := List.find?_eq_none.mp h4 j hj
    simp only [Bool.not_eq_true] at this
    rw [this]
    simp
  rw [find?_congr_on _ _ _ hpt]

/-- Witness for C8 at the concrete no-heading example (table 0
anchored at line 1). -/
theorem c8_fallback_title_witness :
    (extractTitleAndHeader fallbackMd 0 twoRowGrid).1 =
      ((backIdxs 4 1).find? (fun j =>
          fallbackTitleOk (pyStrip ((pySplitNL fallbackMd).getD j "")))).map
        (fun j => pyStrip ((pySplitNL fallbackMd).getD j "")) :=
  (c8_fallback_title fallbackMd 0 twoRowGrid 1 (by decide) (by decide)
    (by decide) (by decide)).1

/-! ## C3: the output file is well-formed JSON

First the four-space re-indentation of chunk blobs is characterized:
applied to a `pyDumps` rendering it produces the rendering at a
deeper indentation. -/

theorem indTailCh_append (a b : List Char) :
    indTailCh (a ++ b) = indTailCh a ++ indTailCh b := by
  induction a with
  | nil => rfl
  | cons c rest ih =>
      by_cases hc : c = '\n'
      · simp [indTailCh, hc, ih]
      · simp [indTailCh, hc, ih]

theorem indentAfterNL_append (s t : String) :
    indentAfterNL (s ++ t) = indentAfterNL s ++ indentAfterNL t := by
  apply String.ext
  simp [indentAfterNL, String.data_append, indTailCh_append]

theorem indTailCh_noNL (cs : List Char) (h : '\n' ∉ cs) :
    indTailCh cs = cs := by
  induction cs with
  | nil => rfl
  | cons c rest ih =>
      have hc : c ≠ '\n' := by
        intro hh
        exact h (hh ▸ List.mem_cons_self c rest)
      simp [indTailCh, hc]
      exact ih (fun hm => h (List.mem_cons_of_mem c hm))

theorem indentAfterNL_noNL (s : String) (h : '\n' ∉ s.data) :
    indentAfterNL s = s := by
  apply String.ext
  simp [indentAfterNL, indTailCh_noNL s.data h]

theorem hexDigitCh_mem (n : Nat) :
    hexDigitCh n ∈ "0123456789abcdef".data := by
  unfold hexDigitCh
  rw [List.getD_eq_getElem?_getD]
  cases h : "0123456789abcdef".data[n]? with
  | none => decide
  | some c => simpa using List.getElem?_mem h

theorem hexDigitCh_not_mem (n : Nat) (c : Char)
    (hc : c ∉ "0123456789abcdef".data) : hexDigitCh n ≠ c := by
  intro h
  exact hc (h ▸ hexDigitCh_mem n)

theorem natReprGo_mem (fuel : Nat) : ∀ (n : Nat) (acc : List Char)
    (c : Char), c ∈ natReprGo fuel n acc →
    c ∈ acc ∨ c ∈ "0123456789abcdef".data := by
  induction fuel with
  | zero => intro n acc c hc; exact Or.inl hc
  | succ f ih =>
      intro n acc c hc
      simp only [natReprGo] at hc
      by_cases hn : n = 0
      · rw [if_pos hn] at hc
        exact Or.inl hc
      · rw [if_neg hn] at hc
        rcases ih (n / 10) (hexDigitCh (n % 10) :: acc) c hc with h | h
        · rcases List.mem_cons.mp h with h' | h'
          · exact Or.inr (h' ▸ hexDigitCh_mem (n % 10))
          · exact Or.inl h'
        · exact Or.inr h

theorem natRepr_noNL (n : Nat) : '\n' ∉ (natRepr n).data := by
  unfold natRepr
  by_cases hn : n = 0
  · rw [if_pos hn]
    decide
  · rw [if_neg hn]
    intro hc
    rcases natReprGo_mem n n [] '\n' hc with h | h
    · exact absurd h (List.not_mem_nil '\n')
    · exact absurd h (by decide)

theorem intRepr_noNL (i : Int) : '\n' ∉ (intRepr i).data := by
  unfold intRepr
  by_cases hi : i < 0
  · rw [if_pos hi]
    rw [String.data_append]
    intro hc
    rcases List.mem_append.mp hc with h | h
    · exact absurd h (by decide)
    · exact absurd h (natRepr_noNL i.natAbs)
  · rw [if_neg hi]
    exact natRepr_noNL i.natAbs

theorem singleton_data (c : Char) : (String.singleton c).data = [c] := rfl

theorem escCharU_noNL (c : Char) : '\n' ∉ (escCharU c).data := by
  unfold escCharU
  split_ifs with h1 h2 h3 h4 h5 h6 h7 h8
  · decide
  · decide
  · decide
  · decide
  · decide
  · decide
  · decide
  · intro hc
    simp only [String.data_append, singleton_data, List.mem_append,
      List.mem_singleton] at hc
    rcases hc with (hc | hc) | hc
    · exact absurd hc (by decide)
    · exact hexDigitCh_not_mem _ _ (by decide) hc.symm
    · exact hexDigitCh_not_mem _ _ (by decide) hc.symm
  · intro hc
    rw [singleton_data, List.mem_singleton] at hc
    rw [← hc] at h3
    exact h3 rfl

theorem hex4_noNL (n : Nat) : '\n' ∉ (hex4 n).data := by
  intro hc
  unfold hex4 at hc
  simp only [List.mem_cons, List.not_mem_nil, or_false] at hc
  rcases hc with h | h | h | h <;>
    exact hexDigitCh_not_mem _ _ (by decide) h.symm

set_option maxHeartbeats 1000000 in
theorem escCharA_noNL (c : Char) : '\n' ∉ (escCharA c).data := by
  unfold escCharA
  split_ifs with h1 h2 h3 h4 h5 h6 h7 h8 h9 h10
  · decide
  · decide
  · decide
  · decide
  · decide
  · decide
  · decide
  · intro hc
    simp only [String.data_append, singleton_data, List.mem_append,
      List.mem_singleton] at hc
    rcases hc with (hc | hc) | hc
    · exact absurd hc (by decide)
    · exact hexDigitCh_not_mem _ _ (by decide) hc.symm
    · exact hexDigitCh_not_mem _ _ (by decide) hc.symm
  · intro hc
    rw [singleton_data, List.mem_singleton] at hc
    rw [← hc] at h3
    exact h3 rfl
  · intro hc
    rw [String.data_append] at hc
    rcases List.mem_append.mp hc with h | h
    · exact absurd h (by decide)
    · exact hex4_noNL _ h
  · intro hc
    simp only [String.data_append, List.mem_append] at hc
    rcases hc with ((h | h) | h) | h
    · exact absurd h (by decide)
    · exact hex4_noNL _ h
    · exact absurd h (by decide)
    · exact hex4_noNL _ h

theorem join_data (l : List String) :
    (String.join l).data = (l.map String.data).join := by
  induction l with
  | nil => rfl
  | cons s rest ih =>
      rw [joinCons, String.data_append, ih]
      rfl

theorem escStringU_noNL (s : String) : '\n' ∉ (escStringU s).data := by
  unfold escStringU
  rw [join_data]
  intro hc
  rcases List.mem_join.mp hc with ⟨piece, hpiece, hmem⟩
  rw [List.map_map] at hpiece
  rcases List.mem_map.mp hpiece with ⟨ch, _, hch⟩
  rw [← hch] at hmem
  exact escCharU_noNL ch hmem

theorem escStringA_noNL (s : String) : '\n' ∉ (escStringA s).data := by
  unfold escStringA
  rw [join_data]
  intro hc
  rcases List.mem_join.mp hc with ⟨piece, hpiece, hmem⟩
  rw [List.map_map] at hpiece
  rcases List.mem_map.mp hpiece with ⟨ch, _, hch⟩
  rw [← hch] at hmem
  exact escCharA_noNL ch hmem

theorem strLitU_noNL (s : String) : '\n' ∉ (strLitU s).data := by
  unfold strLitU
  simp only [String.data_append, List.mem_append]
  intro hc
  rcases hc with (h | h) | h
  · exact absurd h (by decide)
  · exact escStringU_noNL s h
  · exact absurd h (by decide)

theorem strLitA_noNL (s : String) : '\n' ∉ (strLitA s).data := by
  unfold strLitA
  simp only [String.data_append, List.mem_append]
  intro hc
  rcases hc with (h | h) | h
  · exact absurd h (by decide)
  · exact escStringA_noNL s h
  · exact absurd h (by decide)

mutual

/-- Re-indenting a `pyDumps` rendering yields the rendering at four
more spaces of indentation. -/
theorem indent_pyDumpsVal (v : Json) (pre : String)
    (hpre : '\n' ∉ pre.data) :
    indentAfterNL (pyDumpsVal pre v) = pyDumpsVal ("    " ++ pre) v := by
  cases v with
  | null =>
      simp only [pyDumpsVal]
      exact indentAfterNL_noNL _ (by decide)
  | bool b =>
      cases b <;> simp only [pyDumpsVal] <;>
        exact indentAfterNL_noNL _ (by decide)
  | num n =>
      simp only [pyDumpsVal]
      exact indentAfterNL_noNL _ (intRepr_noNL n)
  | str s =>
      simp only [pyDumpsVal]
      exact indentAfterNL_noNL _ (strLitU_noNL s)
  | arr l =>
      cases l with
      | nil =>
          simp only [pyDumpsVal]
          exact indentAfterNL_noNL _ (by decide)
      | cons h t =>
          have hpre2 : '\n' ∉ (pre ++ "  ").data := by
            rw [String.data_append]
            intro hm
            rcases List.mem_append.mp hm with hm | hm
            · exact hpre hm
            · exact absurd hm (by decide)
          have hE := indent_pyDumpsElems (JsonList.cons h t) (pre ++ "  ")
            hpre2 (by intro hcon; cases hcon)
          simp only [pyDumpsVal, indentAfterNL_append]
          rw [indentAfterNL_noNL pre hpre,
            show indentAfterNL "[\n" = "[\n" ++ "    " from by decide,
            show indentAfterNL "\n" = "\n" ++ "    " from by decide,
            show indentAfterNL "]" = "]" from by decide,
            show ("    " ++ pre) ++ "  " = "    " ++ (pre ++ "  ") from
              String.append_assoc "    " pre "  ", ← hE]
          simp only [String.append_assoc]
  | obj ms =>
      cases ms with
      | nil =>
          simp only [pyDumpsVal]
          exact indentAfterNL_noNL _ (by decide)
      | cons k v t =>
          have hpre2 : '\n' ∉ (pre ++ "  ").data := by
            rw [String.data_append]
            intro hm
            rcases List.mem_append.mp hm with hm | hm
            · exact hpre hm
            · exact absurd hm (by decide)
          have hM := indent_pyDumpsMems (JMembers.cons k v t) (pre ++ "  ")
            hpre2 (by intro hcon; cases hcon)
          simp only [pyDumpsVal, indentAfterNL_append]
          rw [indentAfterNL_noNL pre hpre,
            show indentAfterNL "\x7b\n" = "\x7b\n" ++ "    " from by decide,
            show indentAfterNL "\n" = "\n" ++ "    " from by decide,
            show indentAfterNL "\x7d" = "\x7d" from by decide,
            show ("    " ++ pre) ++ "  " = "    " ++ (pre ++ "  ") from
              String.append_assoc "    " pre "  ", ← hM]
          simp only [String.append_assoc]

/-- Companion of `indent_pyDumpsVal` for array element lists. -/
theorem indent_pyDumpsElems (l : JsonList) (pre : String)
    (hpre : '\n' ∉ pre.data) (hne : l ≠ JsonList.nil) :
    "    " ++ indentAfterNL (pyDumpsElems pre l) =
      pyDumpsElems ("    " ++ pre) l := by
  cases l with
  | nil => exact absurd rfl hne
  | cons h t =>
      cases t with
      | nil =>
          simp only [pyDumpsElems, indentAfterNL_append]
          rw [indentAfterNL_noNL pre hpre, indent_pyDumpsVal h pre hpre]
          simp only [String.append_assoc]
      | cons h2 t2 =>
          have hE := indent_pyDumpsElems (JsonList.cons h2 t2) pre hpre
            (by intro hcon; cases hcon)
          simp only [pyDumpsElems, indentAfterNL_append]
          rw [indentAfterNL_noNL pre hpre, indent_pyDumpsVal h pre hpre,
            show indentAfterNL ",\n" = ",\n" ++ "    " from by decide,
            ← hE]
          simp only [String.append_assoc]

/-- Companion of `indent_pyDumpsVal` for object member lists. -/
theorem indent_pyDumpsMems (ms : JMembers) (pre : String)
    (hpre : '\n' ∉ pre.data) (hne : ms ≠ JMembers.nil) :
    "    " ++ indentAfterNL (pyDumpsMems pre ms) =
      pyDumpsMems ("    " ++ pre) ms := by
  cases ms with
  | nil => exact absurd rfl hne
  | cons k v t =>
      cases t with
      | nil =>
          simp only [pyDumpsMems, indentAfterNL_append]
          rw [indentAfterNL_noNL pre hpre,
            indentAfterNL_noNL _ (strLitU_noNL k),
            show indentAfterNL ": " = ": " from by decide,
            indent_pyDumpsVal v pre hpre]
          simp only [String.append_assoc]
      | cons k2 v2 t2 =>
          have hM := indent_pyDumpsMems (JMembers.cons k2 v2 t2) pre hpre
            (by intro hcon; cases hcon)
          simp only [pyDumpsMems, indentAfterNL_append]
          rw [indentAfterNL_noNL pre hpre,
            indentAfterNL_noNL _ (strLitU_noNL k),
            show indentAfterNL ": " = ": " from by decide,
            indent_pyDumpsVal v pre hpre,
            show indentAfterNL ",\n" = ",\n" ++ "    " from by decide,
            ← hM]
          simp only [String.append_assoc]

end

theorem isWs_append (a b : String) (ha : IsWs a) (hb : IsWs b) :
    IsWs (a ++ b) := by
  unfold IsWs at *
  rw [String.data_append, List.all_append, ha, hb]
  rfl

mutual

/-- Every `pyDumps` rendering is grammatically a JSON text denoting
its value, whatever (whitespace) indentation context it is rendered
in. -/
theorem serVal_pyDumps (v : Json) (pre : String) (hpre : IsWs pre) :
    SerVal v (pyDumpsVal pre v) := by
  cases v with
  | null =>
      simp only [pyDumpsVal]
      exact SerVal.jnull
  | bool b =>
      cases b <;> simp only [pyDumpsVal]
      · exact SerVal.jfalse
      · exact SerVal.jtrue
  | num n =>
      simp only [pyDumpsVal]
      exact SerVal.jnum n
  | str s =>
      simp only [pyDumpsVal]
      exact SerVal.jstr s (strLitU s) (Or.inl rfl)
  | arr l =>
      cases l with
      | nil =>
          simp only [pyDumpsVal]
          rw [show ("[]" : String) = "[" ++ "" ++ "]" from rfl]
          exact SerVal.jarrEmpty "" (by unfold IsWs; decide)
      | cons h t =>
          have hpre2 : IsWs (pre ++ "  ") := isWs_append _ _ hpre (by unfold IsWs; decide)
          have hE := serElems_pyDumps (JsonList.cons h t) (pre ++ "  ") "\n"
            ("\n" ++ pre) hpre2 (by unfold IsWs; decide)
            (isWs_append "\n" pre (by unfold IsWs; decide) hpre)
            (by intro hc; cases hc)
          have heq : pyDumpsVal pre (.arr (.cons h t)) =
              "[" ++ ("\n" ++ pyDumpsElems (pre ++ "  ") (.cons h t) ++
                ("\n" ++ pre)) ++ "]" := by
            simp only [pyDumpsVal]
            rw [show ("[\n" : String) = "[" ++ "\n" from rfl]
            simp only [String.append_assoc]
          rw [heq]
          exact SerVal.jarr _ _ hE
  | obj ms =>
      cases ms with
      | nil =>
          simp only [pyDumpsVal]
          rw [show ("\x7b\x7d" : String) = "\x7b" ++ "" ++ "\x7d" from rfl]
          exact SerVal.jobjEmpty "" (by unfold IsWs; decide)
      | cons k v t =>
          have hpre2 : IsWs (pre ++ "  ") := isWs_append _ _ hpre (by unfold IsWs; decide)
          have hM := serMems_pyDumps (JMembers.cons k v t) (pre ++ "  ") "\n"
            ("\n" ++ pre) hpre2 (by unfold IsWs; decide)
            (isWs_append "\n" pre (by unfold IsWs; decide) hpre)
            (by intro hc; cases hc)
          have heq : pyDumpsVal pre (.obj (.cons k v t)) =
              "\x7b" ++ ("\n" ++ pyDumpsMems (pre ++ "  ") (.cons k v t) ++
                ("\n" ++ pre)) ++ "\x7d" := by
            simp only [pyDumpsVal]
            rw [show ("\x7b\n" : String) = "\x7b" ++ "\n" from rfl]
            simp only [String.append_assoc]
          rw [heq]
          exact SerVal.jobj _ _ hM

/-- Companion of `serVal_pyDumps` for array element lists: the
rendered elements, wrapped in any leading/trailing whitespace, form a
grammatical element list. -/
theorem serElems_pyDumps (l : JsonList) (pre lead trail : String)
    (hpre : IsWs pre) (hlead : IsWs lead) (htrail : IsWs trail)
    (hne : l ≠ JsonList.nil) :
    SerElems l (lead ++ pyDumpsElems pre l ++ trail) := by
  cases l with
  | nil => exact absurd rfl hne
  | cons h t =>
      cases t with
      | nil =>
          have hv := serVal_pyDumps h pre hpre
          have heq : lead ++ pyDumpsElems pre (.cons h .nil) ++ trail =
              (lead ++ pre) ++ pyDumpsVal pre h ++ trail := by
            simp only [pyDumpsElems, String.append_assoc]
          rw [heq]
          exact SerElems.single h (lead ++ pre) trail _
            (isWs_append _ _ hlead hpre) htrail hv
      | cons h2 t2 =>
          have hv := serVal_pyDumps h pre hpre
          have hrest := serElems_pyDumps (JsonList.cons h2 t2) pre "\n" trail
            hpre (by unfold IsWs; decide) htrail (by intro hc; cases hc)
          have heq : lead ++ pyDumpsElems pre (.cons h (.cons h2 t2)) ++
                trail =
              (lead ++ pre) ++ pyDumpsVal pre h ++ "" ++ "," ++
                ("\n" ++ pyDumpsElems pre (.cons h2 t2) ++ trail) := by
            simp only [pyDumpsElems]
            rw [show (",\n" : String) = "," ++ "\n" from rfl]
            simp only [String.append_assoc, strAppendEmpty]
          rw [heq]
          exact SerElems.cons h (JsonList.cons h2 t2) (lead ++ pre) "" _ _
            (isWs_append _ _ hlead hpre) (by unfold IsWs; decide) hv hrest

/-- Companion of `serVal_pyDumps` for object member lists. -/
theorem serMems_pyDumps (ms : JMembers) (pre lead trail : String)
    (hpre : IsWs pre) (hlead : IsWs lead) (htrail : IsWs trail)
    (hne : ms ≠ JMembers.nil) :
    SerMems ms (lead ++ pyDumpsMems pre ms ++ trail) := by
  cases ms with
  | nil => exact absurd rfl hne
  | cons k v t =>
      cases t with
      | nil =>
          have hv := serVal_pyDumps v pre hpre
          have heq : lead ++ pyDumpsMems pre (.cons k v .nil) ++ trail =
              (lead ++ pre) ++ strLitU k ++ "" ++ ":" ++ " " ++
                pyDumpsVal pre v ++ trail := by
            simp only [pyDumpsMems]
            rw [show (": " : String) = ":" ++ " " from rfl]
            simp only [String.append_assoc, strAppendEmpty]
          rw [heq]
          exact SerMems.single k v (lead ++ pre) "" " " trail _ _
            (isWs_append _ _ hlead hpre) (by unfold IsWs; decide) (by unfold IsWs; decide) htrail
            (Or.inl rfl) hv
      | cons k2 v2 t2 =>
          have hv := serVal_pyDumps v pre hpre
          have hrest := serMems_pyDumps (JMembers.cons k2 v2 t2) pre "\n"
            trail hpre (by unfold IsWs; decide) htrail (by intro hc; cases hc)
          have heq : lead ++ pyDumpsMems pre (.cons k v (.cons k2 v2 t2)) ++
                trail =
              (lead ++ pre) ++ strLitU k ++ "" ++ ":" ++ " " ++
                pyDumpsVal pre v ++ "" ++ "," ++
                ("\n" ++ pyDumpsMems pre (.cons k2 v2 t2) ++ trail) := by
            simp only [pyDumpsMems]
            rw [show (": " : String) = ":" ++ " " from rfl,
              show (",\n" : String) = "," ++ "\n" from rfl]
            simp only [String.append_assoc, strAppendEmpty]
          rw [heq]
          exact SerMems.cons k v (JMembers.cons k2 v2 t2) (lead ++ pre) ""
            " " "" _ _ _ (isWs_append _ _ hlead hpre) (by unfold IsWs; decide) (by unfold IsWs; decide)
            (by unfold IsWs; decide) (Or.inl rfl) hv hrest

end

/-- A committed chunk's blob is the chunk object rendered at four
spaces of indentation. -/
theorem chunkBlob_eq (p : Nat × Json) :
    chunkBlob p = "    " ++ pyDumpsVal "    " p.2 := by
  unfold chunkBlob indentChunk pyDumps
  rw [indent_pyDumpsVal p.2 "" (by decide), strAppendEmpty]

/-- The separator-joined blob region of a non-empty committed list,
wrapped in whitespace, is a grammatical JSON element list for the
committed chunk values. -/
theorem serElems_blobs (ps : List (Nat × Json)) (p : Nat × Json)
    (lead trail : String) (hlead : IsWs lead) (htrail : IsWs trail) :
    SerElems (JsonList.ofList ((p :: ps).map Prod.snd))
      (lead ++ joinSep ",\n" ((p :: ps).map chunkBlob) ++ trail) := by
  induction ps generalizing p lead with
  | nil =>
      have hv := serVal_pyDumps p.2 "    " (by unfold IsWs; decide)
      have heq : lead ++ joinSep ",\n" ([p].map chunkBlob) ++ trail =
          (lead ++ "    ") ++ pyDumpsVal "    " p.2 ++ trail := by
        simp only [List.map_cons, List.map_nil, joinSep, chunkBlob_eq,
          String.append_assoc]
      rw [heq]
      exact SerElems.single p.2 (lead ++ "    ") trail _
        (isWs_append _ _ hlead (by unfold IsWs; decide)) htrail hv
  | cons q rest ih =>
      have hv := serVal_pyDumps p.2 "    " (by unfold IsWs; decide)
      have hrest := ih q "\n" (by unfold IsWs; decide)
      have heq : lead ++ joinSep ",\n" ((p :: q :: rest).map chunkBlob) ++
            trail =
          (lead ++ "    ") ++ pyDumpsVal "    " p.2 ++ "" ++ "," ++
            ("\n" ++ joinSep ",\n" ((q :: rest).map chunkBlob) ++ trail) := by
        simp only [List.map_cons, joinSep]
        rw [chunkBlob_eq p,
          show (",\n" : String) = "," ++ "\n" from rfl]
        simp only [String.append_assoc, strAppendEmpty]
      rw [heq]
      exact SerElems.cons p.2 _ (lead ++ "    ") "" _ _
        (isWs_append _ _ hlead (by unfold IsWs; decide))
        (by unfold IsWs; decide) hv hrest

/-- The full text of a successful run, as one concatenation: header,
blob region, footer. -/
theorem mdOutput_shape (name id : String) (meta : List (String × Json))
    (tables : List (Option TableData)) (texts : List (Option TextData)) :
    mdOutput name id meta tables texts =
      "\x7b\n" ++ ("  \"name\": " ++ strLitA name ++ ",\n") ++
        ("  \"id\": " ++ strLitA id ++ ",\n") ++ "  \"chunks\": [\n" ++
        joinSep ",\n" ((mdRun meta tables texts).committed.map chunkBlob) ++
        ("\n  ]\n" ++ "\x7d\n") := by
  unfold mdOutput mdOutputWrites
  rw [join_append, join_append, (mdRun_inv meta tables texts).2.2.1]
  unfold headerWrites footerWrites
  rw [joinCons, joinCons, joinCons, joinCons, joinCons, joinCons,
    show String.join ([] : List String) = "" from rfl]
  simp only [strAppendEmpty, String.append_assoc]

/-- The two renderings of the output text — the writer's concatenation
and the JSON-grammar core followed by the trailing newline — are equal
for arbitrary name/id literals and blob region. -/
theorem outputShape_eq (litN litI region : String) :
    "\x7b\n" ++ ("  \"name\": " ++ litN ++ ",\n") ++
      ("  \"id\": " ++ litI ++ ",\n") ++ "  \"chunks\": [\n" ++ region ++
      ("\n  ]\n" ++ "\x7d\n") =
    ("\x7b" ++ (("\n" ++ "  ") ++ "\"name\"" ++ "" ++ ":" ++ " " ++ litN ++
        "" ++ "," ++
      (("\n" ++ "  ") ++ "\"id\"" ++ "" ++ ":" ++ " " ++ litI ++ "" ++ "," ++
        (("\n" ++ "  ") ++ "\"chunks\"" ++ "" ++ ":" ++ " " ++
          ("[" ++ ("\n" ++ region ++ ("\n" ++ "  ")) ++ "]") ++ "\n"))) ++
      "\x7d") ++ "\n" := by
  apply String.ext
  simp only [String.data_append,
    show ("\x7b\n" : String).data = ['\x7b', '\n'] from rfl,
    show ("  \"name\": " : String).data =
      [' ', ' ', '\"', 'n', 'a', 'm', 'e', '\"', ':', ' '] from rfl,
    show (",\n" : String).data = [',', '\n'] from rfl,
    show ("  \"id\": " : String).data =
      [' ', ' ', '\"', 'i', 'd', '\"', ':', ' '] from rfl,
    show ("  \"chunks\": [\n" : String).data =
      [' ', ' ', '\"', 'c', 'h', 'u', 'n', 'k', 's', '\"', ':', ' ', '[',
        '\n'] from rfl,
    show ("\n  ]\n" : String).data = ['\n', ' ', ' ', ']', '\n'] from rfl,
    show ("\x7d\n" : String).data = ['\x7d', '\n'] from rfl,
    show ("\x7b" : String).data = ['\x7b'] from rfl,
    show ("\x7d" : String).data = ['\x7d'] from rfl,
    show ("\n" : String).data = ['\n'] from rfl,
    show ("  " : String).data = [' ', ' '] from rfl,
    show ("\"name\"" : String).data =
      ['\"', 'n', 'a', 'm', 'e', '\"'] from rfl,
    show ("\"id\"" : String).data = ['\"', 'i', 'd', '\"'] from rfl,
    show ("\"chunks\"" : String).data =
      ['\"', 'c', 'h', 'u', 'n', 'k', 's', '\"'] from rfl,
    show ("" : String).data = [] from rfl,
    show (":" : String).data = [':'] from rfl,
    show (" " : String).data = [' '] from rfl,
    show ("," : String).data = [','] from rfl,
    show ("[" : String).data = ['['] from rfl,
    show ("]" : String).data = [']'] from rfl]
  simp only [List.cons_append, List.nil_append, List.append_assoc]

/-- C3.  Every successful `process_markdown_file` run writes a
syntactically valid JSON document: the file is the header, the
committed chunk blobs joined by single `,\n` separators (none
trailing), and the footer; the whole text is a grammatical JSON
rendering of the object with the `name`, `id` and `chunks` members
(`chunks` an array of the committed chunk objects), followed by a
trailing newline — also when zero chunks were committed, as the final
conjunct checks on a concrete zero-chunk run. -/
theorem c3_output_valid_json (name id : String) (meta : List (String × Json))
    (tables : List (Option TableData)) (texts : List (Option TextData)) :
    (mdOutput name id meta tables texts =
      "\x7b\n" ++ ("  \"name\": " ++ strLitA name ++ ",\n") ++
        ("  \"id\": " ++ strLitA id ++ ",\n") ++ "  \"chunks\": [\n" ++
        joinSep ",\n" ((mdRun meta tables texts).committed.map chunkBlob) ++
        ("\n  ]\n" ++ "\x7d\n"))
  ∧ (∃ core : String, mdOutput name id meta tables texts = core ++ "\n" ∧
      SerVal (mdDocJson name id meta tables texts) core)
  ∧ mdOutput "n" "i" [] [] [] =
      "\x7b\n  \"name\": \"n\",\n  \"id\": \"i\",\n  \"chunks\": [\n\n  ]\n\x7d\n" := by
  refine ⟨mdOutput_shape name id meta tables texts, ?_, by decide⟩
  have harr : SerVal
      (Json.arr (JsonList.ofList
        ((mdRun meta tables texts).committed.map Prod.snd)))
      ("[" ++ ("\n" ++
        joinSep ",\n" ((mdRun meta tables texts).committed.map chunkBlob) ++
        ("\n" ++ "  ")) ++ "]") := by
    cases hc : (mdRun meta tables texts).committed with
    | nil => exact SerVal.jarrEmpty _ (by unfold IsWs; decide)
    | cons p rest =>
        exact SerVal.jarr _ _ (serElems_blobs rest p "\n" ("\n" ++ "  ")
          (by unfold IsWs; decide) (by unfold IsWs; decide))
  have hm3 : SerMems
      (JMembers.cons "chunks"
        (Json.arr (JsonList.ofList
          ((mdRun meta tables texts).committed.map Prod.snd)))
        JMembers.nil)
      (("\n" ++ "  ") ++ "\"chunks\"" ++ "" ++ ":" ++ " " ++
        ("[" ++ ("\n" ++
          joinSep ",\n"
            ((mdRun meta tables texts).committed.map chunkBlob) ++
          ("\n" ++ "  ")) ++ "]") ++ "\n") :=
    SerMems.single "chunks" _ ("\n" ++ "  ") "" " " "\n" "\"chunks\"" _
      (by unfold IsWs; decide) (by unfold IsWs; decide)
      (by unfold IsWs; decide) (by unfold IsWs; decide)
      (Or.inl (by decide)) harr
  have hm2 := SerMems.cons "id" (Json.str id) _ ("\n" ++ "  ") "" " " ""
    "\"id\"" (strLitA id) _ (by unfold IsWs; decide)
    (by unfold IsWs; decide) (by unfold IsWs; decide)
    (by unfold IsWs; decide) (Or.inl (by decide))
    (SerVal.jstr id (strLitA id) (Or.inr rfl)) hm3
  have hm1 := SerMems.cons "name" (Json.str name) _ ("\n" ++ "  ") "" " " ""
    "\"name\"" (strLitA name) _ (by unfold IsWs; decide)
    (by unfold IsWs; decide) (by unfold IsWs; decide)
    (by unfold IsWs; decide) (Or.inl (by decide))
    (SerVal.jstr name (strLitA name) (Or.inr rfl)) hm2
  refine ⟨_, ?_, SerVal.jobj _ _ hm1⟩
  rw [mdOutput_shape name id meta tables texts]
  exact outputShape_eq (strLitA name) (strLitA id)
    (joinSep ",\n" ((mdRun meta tables texts).committed.map chunkBlob))

end Docling


